import Mathlib

/-!
# Skill-tree designer: the graph model of `script.js`

A shallow embedding of the `SkillTreeDesigner` class and of the global
functions of `script.js` (`saveTree`, `loadTree`, `loadTreeData`,
`clearCanvas`), followed by theorems about them.

Modelling conventions.

* A node is a `div` element, a mutable object with reference identity.  Every
  `div` ever created by `addNode` lives in `State.heap`, in creation order, and
  a `Ref` is its index there.  `State.nodes` (the array `this.nodes`),
  `State.dom` (the children of the canvas element that are nodes) and
  `State.selectedNode` hold references; the `fromNode`/`toNode` of a connection
  hold a `DomRef`, a node or an element of the page itself, since
  `loadTreeData` passes on whatever `document.getElementById` finds.
* JavaScript numbers are `JsNum`: `NaN`, the two infinities, or an exact
  rational.  Rounding and overflow of doubles are outside the model.
* `style.left` / `style.top` are `Px`: the pixel length they were given, or
  `none` when they hold none.  Assigning a string that is no length (`'NaNpx'`)
  leaves the property as it was, as the CSS object model does.
* What the script reads back from the page belongs to the browser and is a
  parameter, kept in `Env`: the size and corner of the canvas, the integer that
  `parseInt` finds in the serialisation of a length, the bounding rectangle of
  the selected node, and the ids of the elements of the page itself.
* What is only drawn (class lists, border colours, the SVG paths, the form
  fields of the panel) is left out; the values a handler reads from a form or
  from an event are arguments of the handler.
-/

namespace SkillTree

/-! ## Numbers and pixel lengths -/

/-- A JavaScript number: `NaN`, `Infinity`, `-Infinity` or a finite value. -/
inductive JsNum where
  | nan
  | posInf
  | negInf
  | fin (q : ℚ)
deriving DecidableEq

/-- The value of `style.left` or `style.top`: a pixel length, or nothing. -/
abbrev Px := Option ℚ

/-- Integer part of a rational, rounding toward zero. -/
def truncQ (q : ℚ) : ℤ := if 0 ≤ q then ⌊q⌋ else ⌈q⌉

/-- The call `Math.min(a, b)`. -/
def mathMin : JsNum → JsNum → JsNum
  | JsNum.nan, _ => JsNum.nan
  | _, JsNum.nan => JsNum.nan
  | JsNum.negInf, _ => JsNum.negInf
  | _, JsNum.negInf => JsNum.negInf
  | JsNum.posInf, b => b
  | a, JsNum.posInf => a
  | JsNum.fin a, JsNum.fin b => JsNum.fin (min a b)

/-- The call `Math.max(a, b)`. -/
def mathMax : JsNum → JsNum → JsNum
  | JsNum.nan, _ => JsNum.nan
  | _, JsNum.nan => JsNum.nan
  | JsNum.posInf, _ => JsNum.posInf
  | _, JsNum.posInf => JsNum.posInf
  | JsNum.negInf, b => b
  | a, JsNum.negInf => a
  | JsNum.fin a, JsNum.fin b => JsNum.fin (max a b)

/-- The sum `a + b` of two numbers. -/
def jsAdd : JsNum → JsNum → JsNum
  | JsNum.nan, _ => JsNum.nan
  | _, JsNum.nan => JsNum.nan
  | JsNum.posInf, JsNum.negInf => JsNum.nan
  | JsNum.negInf, JsNum.posInf => JsNum.nan
  | JsNum.posInf, _ => JsNum.posInf
  | _, JsNum.posInf => JsNum.posInf
  | JsNum.negInf, _ => JsNum.negInf
  | _, JsNum.negInf => JsNum.negInf
  | JsNum.fin a, JsNum.fin b => JsNum.fin (a + b)

/-- The difference `a - b` of two numbers. -/
def jsSub : JsNum → JsNum → JsNum
  | JsNum.nan, _ => JsNum.nan
  | _, JsNum.nan => JsNum.nan
  | JsNum.posInf, JsNum.posInf => JsNum.nan
  | JsNum.negInf, JsNum.negInf => JsNum.nan
  | JsNum.posInf, _ => JsNum.posInf
  | _, JsNum.negInf => JsNum.posInf
  | JsNum.negInf, _ => JsNum.negInf
  | _, JsNum.posInf => JsNum.negInf
  | JsNum.fin a, JsNum.fin b => JsNum.fin (a - b)

/-- The quotient `a / 2`. -/
def jsHalf : JsNum → JsNum
  | JsNum.fin a => JsNum.fin (a / 2)
  | a => a

/-- The assignment `style.left = v + 'px'` on a property holding `old`: a finite
number gives a length, any other string is rejected and `old` stays. -/
def setPx (old : Px) : JsNum → Px
  | JsNum.fin q => some q
  | _ => old

/-! ## Elements, connections and the designer state -/

/-- Identity of a `div` made by `addNode`: its index in `State.heap`. -/
abbrev Ref := Nat

/-- A node element: `id`, `style.left`, `style.top`, the `dataset` fields and
`style.transition`, which is empty until the node has been pressed. -/
structure Elem where
  id : String
  left : Px
  top : Px
  name : String
  color : String
  size : String
  description : String
  difficulty : String
  transition : String := ""
deriving DecidableEq, Inhabited

/-- An element of the document: a node, by reference, or an element of the page
itself, by its id. -/
inductive DomRef where
  | node (r : Ref)
  | page (id : String)
deriving DecidableEq

/-- A connection object, as built by `createConnection`. -/
structure Connection where
  id : String
  from_ : String
  to_ : String
  fromNode : DomRef
  toNode : DomRef
deriving DecidableEq

/-- The values of `currentTool`. -/
inductive Tool where
  | addNode
  | connect
deriving DecidableEq

/-- The fields of `SkillTreeDesigner` together with the allocation heap and the
document: the children of the canvas element that are nodes (`dom`), the ids of
the elements of the page that come before them in document order (the canvas
itself among them) and the ids of those that come after. -/
structure State where
  heap : List Elem
  dom : List Ref
  nodes : List Ref
  connections : List Connection
  selectedNode : Option Ref
  currentTool : Tool
  isConnecting : Bool
  connectionStart : Option Ref
  nodeCounter : Nat
  connectionCounter : Nat
  pageBefore : List String
  pageAfter : List String
deriving DecidableEq

/-- What the script reads from the page, none of which the source fixes: the
size of the canvas element (`offsetWidth`, `offsetHeight`); the corner of its
bounding rectangle; `cssInt q`, the whole number `parseInt` finds at the head of
the string the browser serialises a length of `q` pixels to (a browser that
writes `1234567px` as `1.23457e+06px` gives 1); the corner of the bounding
rectangle of the selected node, which follows `style.left` and `style.top` with
the delay of `style.transition`; the ids of the elements of the page that come
before and after the nodes in document order. -/
structure Env where
  offsetWidth : Nat
  offsetHeight : Nat
  canvasLeft : ℚ
  canvasTop : ℚ
  cssInt : ℚ → ℤ
  selectedRect : ℚ × ℚ
  pageBefore : List String
  pageAfter : List String

/-- The call `parseInt(node.style.left)`: `NaN` when the property holds no
length, and otherwise the whole number at the head of its serialisation. -/
def parseInt (env : Env) : Px → JsNum
  | none => JsNum.nan
  | some q => JsNum.fin (env.cssInt q)

/-- The element behind a reference. -/
def State.elem (s : State) (r : Ref) : Elem := s.heap.getD r default

/-- In-place update of the element behind a reference. -/
def State.updateElem (s : State) (r : Ref) (f : Elem → Elem) : State :=
  { s with heap := s.heap.set r (f (s.elem r)) }

/-- The template literal that names a node: `node-` followed by the counter. -/
def nodeId (n : Nat) : String := "node-" ++ toString n

/-- The template literal that names a connection. -/
def connectionId (n : Nat) : String := "connection-" ++ toString n

/-- The id of an element of the document. -/
def State.domId (s : State) : DomRef → String
  | DomRef.node r => (s.elem r).id
  | DomRef.page id => id

/-- The state the constructor builds before `init` runs, on the page it finds. -/
def State.empty (env : Env) : State :=
  { heap := [], dom := [], nodes := [], connections := [], selectedNode := none,
    currentTool := Tool.addNode, isConnecting := false, connectionStart := none,
    nodeCounter := 0, connectionCounter := 0,
    pageBefore := env.pageBefore, pageAfter := env.pageAfter }

/-! ## The methods of `SkillTreeDesigner` -/

/-- The method `addNode(x, y, name)`: `x` and `y` are the lengths `x + 'px'`, `y + 'px'`
denote.  Returns the new state and the reference of the new node. -/
def addNode (s : State) (x y : Px) (name : String) : State × Ref :=
  let node : Elem :=
    { id := nodeId s.nodeCounter, left := x, top := y, name := name,
      color := "#00ffff", size := "100", description := "", difficulty := "beginner",
      transition := "" }
  let r := s.heap.length
  ({ s with
      nodeCounter := s.nodeCounter + 1
      heap := s.heap ++ [node]
      dom := s.dom ++ [r]
      nodes := s.nodes ++ [r] }, r)

/-- The method `createInitialNode()`. -/
def createInitialNode (s : State) (env : Env) : State :=
  (addNode s (some ((env.offsetWidth : ℚ) / 2 - 50)) (some ((env.offsetHeight : ℚ) / 2 - 50))
    "Start").1

/-- The method `selectNode(node)`. -/
def selectNode (s : State) (node : Ref) : State :=
  { s with selectedNode := some node }

/-- The method `closeNodePanel()`. -/
def closeNodePanel (s : State) : State :=
  { s with selectedNode := none }

/-- The method `saveNodeChanges()`, with the five values of the panel form. -/
def saveNodeChanges (s : State) (name color size description difficulty : String) : State :=
  match s.selectedNode with
  | none => s
  | some sel =>
    closeNodePanel (s.updateElem sel fun e =>
      { e with name := name, color := color, size := size, description := description,
               difficulty := difficulty })

/-- The global `updateSelectedNode()`, with the four values of the toolbar form. -/
def updateSelectedNode (s : State) (name color size description : String) : State :=
  match s.selectedNode with
  | none => s
  | some sel =>
    s.updateElem sel fun e =>
      { e with name := name, color := color, size := size, description := description }

/-- The method `setTool(tool)`. -/
def setTool (s : State) (tool : Tool) : State :=
  { s with currentTool := tool, isConnecting := false, connectionStart := none }

/-- The handler `handleCanvasClick(e)`. -/
def handleCanvasClick (s : State) (env : Env) (clientX clientY : ℚ) : State :=
  match s.currentTool with
  | Tool.addNode =>
    (addNode s (some (clientX - env.canvasLeft - 50)) (some (clientY - env.canvasTop - 50))
      "New Node").1
  | Tool.connect => s

/-- The handler `handleCanvasMouseDown(e)`; `target` is the node under the pointer,
`elementFromPoint(..)?.closest('.skill-node')`. -/
def handleCanvasMouseDown (s : State) (target : Option Ref) : State :=
  match s.currentTool, target with
  | Tool.connect, some node => { s with isConnecting := true, connectionStart := some node }
  | _, _ => s

/-- The method `createConnection(fromNode, toNode)`. -/
def createConnection (s : State) (fromNode toNode : DomRef) : State :=
  let connection : Connection :=
    { id := connectionId s.connectionCounter
      from_ := s.domId fromNode
      to_ := s.domId toNode
      fromNode := fromNode
      toNode := toNode }
  { s with
      connectionCounter := s.connectionCounter + 1
      connections := s.connections ++ [connection] }

/-- The handler `handleCanvasMouseUp(e)`; `target` is the node under the pointer. -/
def handleCanvasMouseUp (s : State) (target : Option Ref) : State :=
  match s.isConnecting, s.connectionStart with
  | true, some start =>
    let s1 :=
      match target with
      | some targetNode =>
        if targetNode ≠ start then
          createConnection s (DomRef.node start) (DomRef.node targetNode)
        else s
      | none => s
    { s1 with isConnecting := false, connectionStart := none }
  | _, _ => s

/-- The method `deleteSelectedNode()`. -/
def deleteSelectedNode (s : State) : State :=
  match s.selectedNode with
  | none => s
  | some sel =>
    closeNodePanel
      { s with
          connections := s.connections.filter fun conn =>
            if conn.from_ = (s.elem sel).id ∨ conn.to_ = (s.elem sel).id then false else true
          dom := s.dom.filter fun node => node ≠ sel
          nodes := s.nodes.filter fun node => node ≠ sel }

/-- The method `duplicateNode()`; `env.selectedRect` is the corner of the
rectangle `this.selectedNode.getBoundingClientRect()` returns. -/
def duplicateNode (s : State) (env : Env) : State :=
  match s.selectedNode with
  | none => s
  | some sel =>
    let x := env.selectedRect.1 - env.canvasLeft + 50
    let y := env.selectedRect.2 - env.canvasTop + 50
    let added := addNode s (some x) (some y) ((s.elem sel).name ++ " Copy")
    let s1 := added.1
    let newNode := added.2
    let s2 := s1.updateElem newNode fun e =>
      { e with color := (s1.elem sel).color, size := (s1.elem sel).size,
               description := (s1.elem sel).description,
               difficulty := (s1.elem sel).difficulty }
    selectNode s2 newNode

/-- The four accumulators of the first loop of `centerCanvas`. -/
structure Bounds where
  minX : JsNum
  maxX : JsNum
  minY : JsNum
  maxY : JsNum
deriving DecidableEq

/-- The first loop of `centerCanvas`: the bounding box of the node positions. -/
def nodeBounds (s : State) (env : Env) : Bounds :=
  s.nodes.foldl (fun b node =>
    let x := parseInt env (s.elem node).left
    let y := parseInt env (s.elem node).top
    { minX := mathMin b.minX x, maxX := mathMax b.maxX x,
      minY := mathMin b.minY y, maxY := mathMax b.maxY y })
    { minX := JsNum.posInf, maxX := JsNum.negInf, minY := JsNum.posInf, maxY := JsNum.negInf }

/-- One step of the second loop of `centerCanvas`: move a node by the offset. -/
def moveNode (env : Env) (offsetX offsetY : JsNum) (e : Elem) : Elem :=
  { e with left := setPx e.left (jsAdd (parseInt env e.left) offsetX),
           top := setPx e.top (jsAdd (parseInt env e.top) offsetY) }

/-- The method `centerCanvas()`. -/
def centerCanvas (s : State) (env : Env) : State :=
  if s.nodes.length = 0 then s
  else
    let b := nodeBounds s env
    let centerX := jsHalf (jsAdd b.minX b.maxX)
    let centerY := jsHalf (jsAdd b.minY b.maxY)
    let canvasCenterX := JsNum.fin ((env.offsetWidth : ℚ) / 2)
    let canvasCenterY := JsNum.fin ((env.offsetHeight : ℚ) / 2)
    let offsetX := jsSub canvasCenterX centerX
    let offsetY := jsSub canvasCenterY centerY
    s.nodes.foldl (fun st node => st.updateElem node (moveNode env offsetX offsetY)) s

/-- The keys `handleKeyDown` tells apart. -/
inductive Key where
  | delete
  | escape
  | other
deriving DecidableEq

/-- The handler `handleKeyDown(e)`. -/
def handleKeyDown (s : State) (key : Key) : State :=
  match key, s.selectedNode with
  | Key.delete, some _ => deleteSelectedNode s
  | Key.delete, none => s
  | Key.escape, _ => closeNodePanel s
  | Key.other, _ => s

/-- The listeners of `makeNodeDraggable(node)` over one press on `node`: the
press, the pointer move by (`deltaX`, `deltaY`) when `move` holds one, the
release, and the timer the release starts. -/
def dragNode (s : State) (env : Env) (node : Ref) (move : Option (ℚ × ℚ)) : State :=
  match s.currentTool with
  | Tool.connect => s
  | Tool.addNode =>
    let s1 := selectNode s node
    let startLeft := parseInt env (s1.elem node).left
    let startTop := parseInt env (s1.elem node).top
    let s2 :=
      match move with
      | none => s1
      | some delta =>
        s1.updateElem node fun e =>
          { e with left := setPx e.left (jsAdd startLeft (JsNum.fin delta.1)),
                   top := setPx e.top (jsAdd startTop (JsNum.fin delta.2)) }
    s2.updateElem node fun e => { e with transition := "all 0.3s ease" }

/-! ## Saving, loading and clearing -/

/-- An entry of `treeData.nodes` as `loadTreeData` reads it.  `x` and `y` are
the numbers of pixels when `nodeData.x + 'px'` and `nodeData.y + 'px'` are plain
pixel lengths (`none` otherwise, as for a `null`), `name` is `none` when the
property is undefined, and the other fields are the property values as strings. -/
structure NodeData where
  id : String
  name : Option String
  x : Px
  y : Px
  color : String
  size : String
  description : String
  difficulty : String
deriving DecidableEq

/-- An entry of `treeData.connections` as `loadTreeData` reads it. -/
structure ConnData where
  from_ : String
  to_ : String
deriving DecidableEq

/-- A parsed save file as `loadTreeData` reads it.  A field is `none` when the
document has no array under that name (so that `.forEach` throws); an entry of
an array is `none` when it is `null` (so that reading a property of it throws). -/
structure TreeData where
  nodes : Option (List (Option NodeData))
  connections : Option (List (Option ConnData))
deriving DecidableEq

/-- The document `saveTree()` writes, as `JSON.parse` gives it back: a `NaN`
position is written as `null`. -/
def saveTree (s : State) (env : Env) : TreeData :=
  { nodes := some (s.nodes.map fun node =>
      some
        { id := (s.elem node).id
          name := some (s.elem node).name
          x := setPx none (parseInt env (s.elem node).left)
          y := setPx none (parseInt env (s.elem node).top)
          color := (s.elem node).color
          size := (s.elem node).size
          description := (s.elem node).description
          difficulty := (s.elem node).difficulty })
    connections := some (s.connections.map fun conn =>
      some { from_ := conn.from_, to_ := conn.to_ }) }

/-- The lookup `document.getElementById(id)` as `loadTreeData` makes it: the
first element of the document that carries the id, among the elements of the
page before the nodes, the nodes on the canvas, and the elements of the page
after them.  No element carries the empty id.  The one other element with an
id, the path `temp-connection` of a gesture, is a child of the connections SVG,
which `loadTreeData` has emptied by then. -/
def getElementById (s : State) (id : String) : Option DomRef :=
  if id = "" then none
  else if id ∈ s.pageBefore then some (DomRef.page id)
  else
    match s.dom.find? fun r => (s.elem r).id = id with
    | some r => some (DomRef.node r)
    | none => if id ∈ s.pageAfter then some (DomRef.page id) else none

/-- The loop `treeData.nodes.forEach(..)` of `loadTreeData`; the flag tells
whether the loop threw. -/
def loadNodes (s : State) : List (Option NodeData) → State × Bool
  | [] => (s, false)
  | none :: _ => (s, true)
  | some nodeData :: rest =>
    let added := addNode s nodeData.x nodeData.y (nodeData.name.getD "New Node")
    let s1 := added.1.updateElem added.2 fun e =>
      { e with color := nodeData.color, size := nodeData.size,
               description := nodeData.description, difficulty := nodeData.difficulty }
    loadNodes s1 rest

/-- The loop `treeData.connections.forEach(..)` of `loadTreeData`; the flag
tells whether the loop threw. -/
def loadConnections (s : State) : List (Option ConnData) → State × Bool
  | [] => (s, false)
  | none :: _ => (s, true)
  | some connData :: rest =>
    match getElementById s connData.from_, getElementById s connData.to_ with
    | some fromNode, some toNode => loadConnections (createConnection s fromNode toNode) rest
    | _, _ => loadConnections s rest

/-- The statements that `loadTreeData` and `clearCanvas` start with: every node
leaves the document and both arrays are emptied. -/
def removeAll (s : State) : State :=
  { s with dom := s.dom.filter fun r => r ∉ s.nodes, nodes := [], connections := [] }

/-- The function `loadTreeData(treeData)`: the state it leaves and whether it threw. -/
def loadTreeData (s : State) (treeData : TreeData) : State × Bool :=
  let s0 := removeAll s
  match treeData.nodes with
  | none => (s0, true)
  | some nodes =>
    let r1 := loadNodes s0 nodes
    if r1.2 then r1
    else
      match treeData.connections with
      | none => (r1.1, true)
      | some connections => loadConnections r1.1 connections

/-- The `onload` callback of `loadTree()`: `parsed` is `none` when `JSON.parse`
throws on the file text.  The flag tells whether the `alert` of the `catch`
branch is raised. -/
def loadTree (s : State) (parsed : Option TreeData) : State × Bool :=
  match parsed with
  | none => (s, true)
  | some treeData => loadTreeData s treeData

/-- The function `clearCanvas()`; `confirmed` is the answer to the `confirm` dialog. -/
def clearCanvas (s : State) (env : Env) (confirmed : Bool) : State :=
  if confirmed then createInitialNode (closeNodePanel (removeAll s)) env
  else s

/-! ## Reachable states -/

/-- The state after the constructor: `init()` has created the node `Start`. -/
def State.init (env : Env) : State := createInitialNode (State.empty env) env

/-- The events and toolbar actions of the page. -/
inductive Op where
  | canvasClick (env : Env) (clientX clientY : ℚ)
  | nodeClick (node : Ref)
  | drag (env : Env) (node : Ref) (move : Option (ℚ × ℚ))
  | canvasMouseDown (target : Option Ref)
  | canvasMouseUp (target : Option Ref)
  | setTool (tool : Tool)
  | keyDown (key : Key)
  | deleteSelectedNode
  | duplicateNode (env : Env)
  | centerCanvas (env : Env)
  | closeNodePanel
  | saveNodeChanges (name color size description difficulty : String)
  | updateSelectedNode (name color size description : String)
  | loadTree (parsed : Option TreeData)
  | clearCanvas (env : Env) (confirmed : Bool)

/-- The state after an event. -/
def step (s : State) : Op → State
  | Op.canvasClick env clientX clientY => handleCanvasClick s env clientX clientY
  | Op.nodeClick node => selectNode s node
  | Op.drag env node move => dragNode s env node move
  | Op.canvasMouseDown target => handleCanvasMouseDown s target
  | Op.canvasMouseUp target => handleCanvasMouseUp s target
  | Op.setTool tool => setTool s tool
  | Op.keyDown key => handleKeyDown s key
  | Op.deleteSelectedNode => deleteSelectedNode s
  | Op.duplicateNode env => duplicateNode s env
  | Op.centerCanvas env => centerCanvas s env
  | Op.closeNodePanel => closeNodePanel s
  | Op.saveNodeChanges name color size description difficulty =>
    saveNodeChanges s name color size description difficulty
  | Op.updateSelectedNode name color size description =>
    updateSelectedNode s name color size description
  | Op.loadTree parsed => (loadTree s parsed).1
  | Op.clearCanvas env confirmed => clearCanvas s env confirmed

/-- What the browser can deliver: a pointer event only hits a node that is in
the document, and the bounding rectangle of an element that is not in the
document is all zero. -/
def Op.enabled (s : State) : Op → Bool
  | Op.nodeClick node => decide (node ∈ s.dom)
  | Op.drag _ node _ => decide (node ∈ s.dom)
  | Op.canvasMouseDown (some node) => decide (node ∈ s.dom)
  | Op.canvasMouseUp (some node) => decide (node ∈ s.dom)
  | Op.duplicateNode env =>
    match s.selectedNode with
    | none => true
    | some sel => decide (sel ∈ s.dom) || decide (env.selectedRect = (0, 0))
  | _ => true

/-- The states the page can be in. -/
inductive Reachable : State → Prop where
  | init (env : Env) : Reachable (State.init env)
  | step {s : State} (op : Op) : Reachable s → op.enabled s = true → Reachable (step s op)

/-- The state after a sequence of events, oldest first. -/
def run (s : State) : List Op → State
  | [] => s
  | op :: rest => run (step s op) rest

/-- Every event of the sequence is enabled in the state it arrives in. -/
def runEnabled (s : State) : List Op → Bool
  | [] => true
  | op :: rest => op.enabled s && runEnabled (step s op) rest

/-! ## Auxiliary definitions for the proofs -/

/-- Value of a decimal digit character. -/
def digitVal (c : Char) : Nat := c.toNat - 48

/-- Value of a string of decimal digits read after the number `acc`. -/
def digitsVal (acc : Nat) (cs : List Char) : Nat :=
  cs.foldl (fun a c => a * 10 + digitVal c) acc

/-- The invariant of the allocation discipline: the counter counts the elements
created so far, the element created `i`-th is named `node-i`, the node array
has no repetition and holds valid references, and it lists the children of the
canvas. -/
structure Inv (s : State) : Prop where
  counter : s.nodeCounter = s.heap.length
  ids : ∀ i, i < s.heap.length → (s.elem i).id = nodeId i
  nodup : s.nodes.Nodup
  bound : ∀ r ∈ s.nodes, r < s.heap.length
  dom : s.dom = s.nodes

/-- The ids the script itself looks up with `getElementById`; the page must
have them, the canvas first. -/
def scriptIds : List String :=
  ["canvas", "connections-svg", "node-panel", "node-size", "size-value", "panel-node-size",
   "panel-size-value", "node-name", "node-color", "node-description", "panel-node-name",
   "panel-node-color", "panel-node-description", "panel-node-difficulty", "addNode-btn",
   "connect-btn"]

/-- A canvas of 800 by 600 pixels in the corner of the viewport, on a page with
the elements the script looks up, in a browser that serialises every length in
full, so that `parseInt` finds its integer part; the rectangle of the selected
node is the all-zero one. -/
def env0 : Env :=
  { offsetWidth := 800, offsetHeight := 600, canvasLeft := 0, canvasTop := 0,
    cssInt := truncQ, selectedRect := (0, 0), pageBefore := scriptIds, pageAfter := [] }

/-- The scenario of the spec: `Start`, a second node renamed `Fire Bolt`, one
connection from the first to the second, and `Start` selected. -/
def twoNodes : State :=
  run (State.init env0)
    [Op.canvasClick env0 600 200, Op.nodeClick 1,
     Op.saveNodeChanges "Fire Bolt" "#00ffff" "100" "" "beginner",
     Op.setTool Tool.connect, Op.canvasMouseDown (some 0), Op.canvasMouseUp (some 1),
     Op.nodeClick 0]

/-! ## Definitions used by the claims -/

/-- The page of `env0` while the selected node is drawn at (350, 250), where
`createInitialNode` puts `Start`. -/
def startSelected : Env := { env0 with selectedRect := (350, 250) }

/-- A session that adds, deletes, loads, clears and duplicates. -/
def busySession : List Op :=
  [Op.canvasClick env0 600 200, Op.nodeClick 0, Op.deleteSelectedNode,
   Op.canvasClick env0 100 100, Op.loadTree (some (saveTree twoNodes env0)),
   Op.clearCanvas env0 true, Op.nodeClick 5, Op.duplicateNode startSelected]

/-- A save file without a `nodes` array, as the document `{}` is. -/
def emptyDocument : TreeData := { nodes := none, connections := none }

/-- The initial state with `Start` selected, after a load of the saved spec
scenario: the selection still refers to the removed `Start`. -/
def staleSelection : State :=
  run (State.init env0) [Op.nodeClick 0, Op.loadTree (some (saveTree twoNodes env0))]

/-- The spec scenario in the middle of a connect gesture that started on `Start`. -/
def midGesture : State :=
  run twoNodes [Op.canvasMouseDown (some 0)]

/-- The attributes of a node a save file is meant to carry. -/
structure Attrs where
  name : String
  left : Px
  top : Px
  color : String
  size : String
  description : String
  difficulty : String
deriving DecidableEq

/-- The attributes of an element. -/
def attrs (e : Elem) : Attrs :=
  { name := e.name, left := e.left, top := e.top, color := e.color, size := e.size,
    description := e.description, difficulty := e.difficulty }

/-- The attributes as `saveTree` writes them: the position goes through `parseInt`. -/
def savedAttrs (env : Env) (e : Elem) : Attrs :=
  { name := e.name, left := setPx none (parseInt env e.left),
    top := setPx none (parseInt env e.top), color := e.color, size := e.size,
    description := e.description, difficulty := e.difficulty }

/-- The attributes with the position cut to whole pixels toward zero. -/
def truncAttrs (e : Elem) : Attrs :=
  { name := e.name, left := e.left.map fun q => (truncQ q : ℚ),
    top := e.top.map fun q => (truncQ q : ℚ), color := e.color, size := e.size,
    description := e.description, difficulty := e.difficulty }

/-- The browser serialises the length in full: `parseInt` finds its integer part. -/
def ReadsExactly (env : Env) (p : Px) : Prop :=
  ∀ q, p = some q → env.cssInt q = truncQ q

/-- The attributes `loadTreeData` gives the node it makes from an entry. -/
def dataAttrs (d : NodeData) : Attrs :=
  { name := d.name.getD "New Node", left := d.x, top := d.y, color := d.color, size := d.size,
    description := d.description, difficulty := d.difficulty }

/-- The attribute tuples of the nodes, in the order of the node array. -/
def nodeAttrs (s : State) : List Attrs :=
  s.nodes.map fun r => attrs (s.elem r)

/-- The position in the node array of an end of a connection, when the end is a
node of the array. -/
def endIndex (s : State) : DomRef → Option Nat
  | DomRef.node r => if r ∈ s.nodes then some (s.nodes.indexOf r) else none
  | DomRef.page _ => none

/-- The connections as pairs of positions in the node array. -/
def connShape (s : State) : List (Option Nat × Option Nat) :=
  s.connections.map fun c => (endIndex s c.fromNode, endIndex s c.toNode)

/-- A canvas 801 pixels wide: its centre lies on a half pixel. -/
def oddCanvas : Env := { env0 with offsetWidth := 801 }

/-- On the odd canvas: `Start` at (350.5, 250), a second node, and a connection
from `Start` to it. -/
def halfPixel : State :=
  run (State.init oddCanvas)
    [Op.canvasClick oddCanvas 600 200, Op.setTool Tool.connect, Op.canvasMouseDown (some 0),
     Op.canvasMouseUp (some 1)]

/-- Both ends of every connection name the id of a node of the node array. -/
def ConnectionsResolve (s : State) : Prop :=
  ∀ c ∈ s.connections,
    (∃ r ∈ s.nodes, (s.elem r).id = c.from_) ∧ (∃ r ∈ s.nodes, (s.elem r).id = c.to_)

instance (s : State) : Decidable (ConnectionsResolve s) := by
  unfold ConnectionsResolve; infer_instance

/-- The events that take nodes out of the node array. -/
def Op.removesNodes : Op → Bool
  | Op.keyDown Key.delete => true
  | Op.deleteSelectedNode => true
  | Op.loadTree _ => true
  | Op.clearCanvas _ true => true
  | _ => false

/-- The ids a save file names in its connections. -/
def TreeData.connectionIds (t : TreeData) : List String :=
  (t.connections.getD []).flatMap fun c =>
    match c with
    | some d => [d.from_, d.to_]
    | none => []

/-- The events that load a file which names, in a connection, the id of an
element of the page itself. -/
def Op.namesPage (s : State) : Op → Bool
  | Op.loadTree (some t) =>
    t.connectionIds.any fun id => decide (id ∈ s.pageBefore ++ s.pageAfter)
  | _ => false

/-- The states reached when no node is removed while a connect gesture is in
progress and no loaded file names an element of the page itself. -/
inductive ReachableApart : State → Prop where
  | init (env : Env) : ReachableApart (State.init env)
  | step {s : State} (op : Op) : ReachableApart s → op.enabled s = true →
      (s.isConnecting = true → op.removesNodes = false) → op.namesPage s = false →
      ReachableApart (step s op)

/-- Every event of the sequence is enabled, none removes a node during a
connect gesture, and none loads a file that names an element of the page. -/
def runApart (s : State) : List Op → Bool
  | [] => true
  | op :: rest =>
    op.enabled s && (!s.isConnecting || !op.removesNodes) && !op.namesPage s &&
      runApart (step s op) rest

/-- The source of a connect gesture in progress is in the node array. -/
def GestureResolves (s : State) : Prop :=
  s.isConnecting = true → ∀ st, s.connectionStart = some st → st ∈ s.nodes

/-- Two nodes; a gesture starts on the selected `Start`, `Start` is deleted with
the Delete key, and the gesture ends on the other node. -/
def deleteMidGesture : List Op :=
  [Op.canvasClick env0 600 200, Op.setTool Tool.connect, Op.nodeClick 0,
   Op.canvasMouseDown (some 0), Op.keyDown Key.delete, Op.canvasMouseUp (some 1)]

/-- The saved spec scenario with two connections: one between the two saved
nodes as `loadTreeData` will number them, one from the id of the old `Start`. -/
def danglingDocument : TreeData :=
  { nodes := (saveTree twoNodes env0).nodes
    connections := some [some { from_ := "node-3", to_ := "node-2" },
                         some { from_ := "node-0", to_ := "node-2" }] }

/-- The spec scenario after `danglingDocument` is loaded over it. -/
def afterDanglingLoad : State := run twoNodes [Op.loadTree (some danglingDocument)]

/-- A save file without nodes whose one connection names two elements of the
page: the canvas and the node panel. -/
def pageDocument : TreeData :=
  { nodes := some []
    connections := some [some { from_ := "canvas", to_ := "node-panel" }] }

/-- The read-back of a coordinate that is serialised in full. -/
def idealInt : Px → JsNum
  | none => JsNum.nan
  | some q => JsNum.fin (truncQ q)

/-- The offset `centerCanvas` computes on one axis: `rd` reads a coordinate
back, `c` is the centre of the canvas and `xs` lists the coordinates of the
nodes. -/
def axisOffset (rd : Px → JsNum) (c : ℚ) (xs : List Px) : JsNum :=
  jsSub (JsNum.fin c)
    (jsHalf (jsAdd ((xs.map rd).foldl mathMin JsNum.posInf)
      ((xs.map rd).foldl mathMax JsNum.negInf)))

/-- The move of one coordinate by `centerCanvas`. -/
def axisMove (rd : Px → JsNum) (o : JsNum) (p : Px) : Px := setPx p (jsAdd (rd p) o)

/-- The coordinates of an axis do not straddle zero with fractions: one of them
is no length, or all are whole numbers, or none is negative, or none is
positive. -/
def AxisSettled (ps : List Px) : Prop :=
  none ∈ ps ∨ (∀ p ∈ ps, ∀ q ∈ p, (truncQ q : ℚ) = q) ∨ (∀ p ∈ ps, ∀ q ∈ p, 0 ≤ q) ∨
    (∀ p ∈ ps, ∀ q ∈ p, q ≤ 0)

instance (ps : List Px) : Decidable (AxisSettled ps) := by
  unfold AxisSettled; infer_instance

/-- The `style.left` of the nodes, in the order of the node array. -/
def lefts (s : State) : List Px := s.nodes.map fun r => (s.elem r).left

/-- The `style.top` of the nodes, in the order of the node array. -/
def tops (s : State) : List Px := s.nodes.map fun r => (s.elem r).top

/-- A save file made on a wider screen: two nodes 1000 pixels apart. -/
def wideDocument : TreeData :=
  { nodes := some
      [some { id := "node-0", name := some "Start", x := some 0, y := some 0,
              color := "#00ffff", size := "100", description := "", difficulty := "beginner" },
       some { id := "node-1", name := some "Goal", x := some 1000, y := some 0,
              color := "#00ffff", size := "100", description := "", difficulty := "beginner" }]
    connections := some [] }

/-- The wide document loaded on the odd canvas. -/
def wideOnOdd : State := run (State.init oddCanvas) [Op.loadTree (some wideDocument)]

/-- The selected node, when there is one, is in the node array. -/
def SelectionValid (s : State) : Prop :=
  ∀ r, s.selectedNode = some r → r ∈ s.nodes

/-- The selected node, when there is one, is an element that was created. -/
def SelectedInHeap (s : State) : Prop :=
  ∀ r, s.selectedNode = some r → r < s.heap.length

/-- The events that run `loadTreeData`. -/
def Op.loads : Op → Bool
  | Op.loadTree (some _) => true
  | _ => false

/-! ## Lemmas on the heap and the invariant -/

theorem digitVal_digitChar (k : Nat) (h : k < 10) : digitVal (Nat.digitChar k) = k := by
  interval_cases k <;> rfl

theorem digitsVal_toDigitsCore (fuel : Nat) : ∀ (n : Nat) (ds : List Char), n < fuel →
    digitsVal 0 (Nat.toDigitsCore 10 fuel n ds) = digitsVal n ds := by
  induction fuel with
  | zero => intro n ds h; exact absurd h (Nat.not_lt_zero n)
  | succ fuel ih =>
    intro n ds h
    simp only [Nat.toDigitsCore]
    split
    · rename_i h0
      have hn : n < 10 := by
        by_contra hc
        have : 0 < n / 10 := Nat.div_pos (Nat.le_of_not_lt hc) (by decide)
        omega
      simp [digitsVal, Nat.mod_eq_of_lt hn, digitVal_digitChar n hn]
    · rename_i h0
      have hlt : n / 10 < fuel := by omega
      rw [ih (n / 10) _ hlt]
      simp only [digitsVal, List.foldl_cons, digitVal_digitChar _ (Nat.mod_lt n (by decide : 10 > 0))]
      congr 1
      omega

theorem toString_nat_injective : Function.Injective (fun n : Nat => toString n) := by
  intro a b h
  have h1 : Nat.toDigits 10 a = Nat.toDigits 10 b := by
    have := congrArg String.data h
    simpa [toString, Nat.repr, List.asString] using this
  have ha := digitsVal_toDigitsCore (a + 1) a [] (Nat.lt_succ_self a)
  have hb := digitsVal_toDigitsCore (b + 1) b [] (Nat.lt_succ_self b)
  simp only [digitsVal, List.foldl_nil] at ha hb
  unfold Nat.toDigits at h1
  rw [← ha, ← hb, h1]

theorem nodeId_injective : Function.Injective nodeId := by
  intro a b h
  apply toString_nat_injective
  have := congrArg String.data h
  simp only [nodeId, String.data_append, List.append_cancel_left_eq] at this
  exact String.ext this


theorem elem_updateElem (s : State) (r i : Ref) (f : Elem → Elem) :
    (s.updateElem r f).elem i = if i = r ∧ r < s.heap.length then f (s.elem r) else s.elem i := by
  unfold State.updateElem State.elem
  simp only [List.getD_eq_getElem?_getD, List.getElem?_set]
  by_cases h : r = i
  · subst h
    by_cases h2 : r < s.heap.length
    · simp [h2]
    · simp [h2, List.getElem?_eq_none (Nat.le_of_not_lt h2)]
  · have h' : ¬ i = r := fun e => h e.symm
    simp [h, h']

theorem elem_addNode_old (s : State) (x y : Px) (name : String) (i : Ref) (h : i < s.heap.length) :
    (addNode s x y name).1.elem i = s.elem i := by
  unfold addNode State.elem
  simp [List.getD_eq_getElem?_getD, List.getElem?_append_left, h]

theorem elem_addNode_new (s : State) (x y : Px) (name : String) :
    (addNode s x y name).1.elem (addNode s x y name).2 =
      { id := nodeId s.nodeCounter, left := x, top := y, name := name,
        color := "#00ffff", size := "100", description := "", difficulty := "beginner" } := by
  unfold addNode State.elem
  simp [List.getD_eq_getElem?_getD]


theorem Inv.congr {s t : State} (h : Inv s) (h1 : t.heap = s.heap)
    (h2 : t.nodeCounter = s.nodeCounter) (h3 : t.nodes = s.nodes) (h4 : t.dom = s.dom) :
    Inv t := by
  refine ⟨?_, ?_, ?_, ?_, ?_⟩
  · rw [h2, h1]; exact h.counter
  · intro i hi
    have := h.ids i (h1 ▸ hi)
    simpa [State.elem, h1] using this
  · rw [h3]; exact h.nodup
  · intro r hr; rw [h1]; exact h.bound r (h3 ▸ hr)
  · rw [h4, h3]; exact h.dom

theorem Inv.addNode {s : State} (h : Inv s) (x y : Px) (name : String) :
    Inv (addNode s x y name).1 := by
  refine ⟨?_, ?_, ?_, ?_, ?_⟩
  · simp [SkillTree.addNode, h.counter]
  · intro i hi
    have hi' : i < s.heap.length + 1 := by simpa [SkillTree.addNode] using hi
    rcases Nat.lt_succ_iff_lt_or_eq.mp hi' with hlt | heq
    · rw [elem_addNode_old s x y name i hlt]; exact h.ids i hlt
    · have := elem_addNode_new s x y name
      have h2 : (SkillTree.addNode s x y name).2 = i := by simp [SkillTree.addNode, heq]
      rw [h2] at this
      rw [this, h.counter, heq]
  · have hn : s.heap.length ∉ s.nodes := fun hm => Nat.lt_irrefl _ (h.bound _ hm)
    simpa [SkillTree.addNode, List.nodup_append, h.nodup] using hn
  · intro r hr
    have : r ∈ s.nodes ∨ r = s.heap.length := by simpa [SkillTree.addNode] using hr
    rcases this with hm | he
    · have := h.bound r hm
      show r < (s.heap ++ [_]).length
      rw [List.length_append, List.length_singleton]; exact Nat.lt_succ_of_lt this
    · simp [SkillTree.addNode, he]
  · simp [SkillTree.addNode, h.dom]

theorem Inv.updateElem {s : State} (h : Inv s) (r : Ref) (f : Elem → Elem)
    (hf : ∀ e, (f e).id = e.id) : Inv (s.updateElem r f) := by
  refine ⟨?_, ?_, h.nodup, ?_, h.dom⟩
  · simpa [State.updateElem] using h.counter
  · intro i hi
    have hi' : i < s.heap.length := by simpa [State.updateElem] using hi
    rw [elem_updateElem]
    split
    · rename_i hc
      rw [hf, ← hc.1]; exact h.ids i hi'
    · exact h.ids i hi'
  · intro r' hr'
    have := h.bound r' hr'
    simpa [State.updateElem] using this

theorem Inv.filter {s : State} (h : Inv s) (p : Ref → Bool) (cs : List Connection)
    (sel : Option Ref) :
    Inv { s with connections := cs, dom := s.dom.filter p, nodes := s.nodes.filter p,
                 selectedNode := sel } := by
  refine ⟨h.counter, h.ids, h.nodup.filter _, ?_, ?_⟩
  · intro r hr
    exact h.bound r (List.mem_filter.mp hr).1
  · simp [h.dom]

theorem Inv.selectNode {s : State} (h : Inv s) (r : Ref) : Inv (selectNode s r) :=
  h.congr rfl rfl rfl rfl

theorem Inv.closeNodePanel {s : State} (h : Inv s) : Inv (closeNodePanel s) :=
  h.congr rfl rfl rfl rfl

theorem Inv.removeAll {s : State} (h : Inv s) : Inv (removeAll s) := by
  refine ⟨h.counter, h.ids, List.nodup_nil, ?_, ?_⟩
  · intro r hr; simp [SkillTree.removeAll] at hr
  · simp [SkillTree.removeAll, h.dom]

theorem Inv.loadNodes (l : List (Option NodeData)) : ∀ {s : State}, Inv s → Inv (loadNodes s l).1 := by
  induction l with
  | nil => intro s h; simpa [SkillTree.loadNodes] using h
  | cons a rest ih =>
    intro s h
    cases a with
    | none => simpa [SkillTree.loadNodes] using h
    | some d =>
      simp only [SkillTree.loadNodes]
      exact ih ((h.addNode _ _ _).updateElem _ _ (by intro e; rfl))

theorem Inv.createConnection {s : State} (h : Inv s) (a b : DomRef) :
    Inv (createConnection s a b) :=
  h.congr rfl rfl rfl rfl

theorem Inv.loadConnections (l : List (Option ConnData)) :
    ∀ {s : State}, Inv s → Inv (loadConnections s l).1 := by
  induction l with
  | nil => intro s h; simpa [SkillTree.loadConnections] using h
  | cons a rest ih =>
    intro s h
    cases a with
    | none => simpa [SkillTree.loadConnections] using h
    | some c =>
      simp only [SkillTree.loadConnections]
      split
      · exact ih (h.createConnection _ _)
      · exact ih h

theorem Inv.loadTreeData {s : State} (h : Inv s) (t : TreeData) : Inv (loadTreeData s t).1 := by
  unfold SkillTree.loadTreeData
  cases t.nodes with
  | none => exact h.removeAll
  | some ns =>
    simp only
    split
    · exact Inv.loadNodes ns h.removeAll
    · cases t.connections with
      | none => exact Inv.loadNodes ns h.removeAll
      | some cs => exact Inv.loadConnections cs (Inv.loadNodes ns h.removeAll)

theorem Inv.foldUpdate (f : Elem → Elem) (hf : ∀ e, (f e).id = e.id) (l : List Ref) :
    ∀ {s : State}, Inv s → Inv (l.foldl (fun st node => st.updateElem node f) s) := by
  induction l with
  | nil => intro s h; exact h
  | cons a rest ih => intro s h; exact ih (h.updateElem a f hf)

theorem Inv.centerCanvas {s : State} (h : Inv s) (env : Env) : Inv (centerCanvas s env) := by
  unfold SkillTree.centerCanvas
  split
  · exact h
  · exact Inv.foldUpdate _ (by intro e; rfl) _ h

theorem Inv.deleteSelectedNode {s : State} (h : Inv s) : Inv (deleteSelectedNode s) := by
  unfold SkillTree.deleteSelectedNode
  split
  · exact h
  · exact h.filter _ _ _

theorem Inv.init (env : Env) : Inv (State.init env) := by
  have h0 : Inv (State.empty env) :=
    ⟨rfl, fun i hi => absurd hi (Nat.not_lt_zero i), List.nodup_nil,
      fun r hr => absurd hr (List.not_mem_nil r), rfl⟩
  exact h0.addNode _ _ _

theorem Inv.step {s : State} (h : Inv s) (op : Op) : Inv (step s op) := by
  cases op with
  | canvasClick env cx cy =>
    simp only [SkillTree.step, handleCanvasClick]
    split
    · exact h.addNode _ _ _
    · exact h
  | nodeClick node => exact h.congr rfl rfl rfl rfl
  | drag env node move =>
    simp only [SkillTree.step, dragNode]
    split
    · exact h
    · cases move with
      | none => exact Inv.updateElem (h.selectNode _) _ _ (by intro e; rfl)
      | some delta =>
        exact Inv.updateElem (Inv.updateElem (h.selectNode _) _ _ (by intro e; rfl)) _ _
          (by intro e; rfl)
  | canvasMouseDown target =>
    simp only [SkillTree.step, handleCanvasMouseDown]
    split
    · exact h.congr rfl rfl rfl rfl
    · exact h
  | canvasMouseUp target =>
    simp only [SkillTree.step, handleCanvasMouseUp]
    split
    · cases target with
      | none => exact h.congr rfl rfl rfl rfl
      | some t =>
        simp only
        split
        · exact h.congr rfl rfl rfl rfl
        · exact h.congr rfl rfl rfl rfl
    · exact h
  | setTool tool => exact h.congr rfl rfl rfl rfl
  | keyDown key =>
    simp only [SkillTree.step, handleKeyDown]
    split
    · exact h.deleteSelectedNode
    · exact h
    · exact h.congr rfl rfl rfl rfl
    · exact h
  | deleteSelectedNode => exact h.deleteSelectedNode
  | duplicateNode env =>
    simp only [SkillTree.step, SkillTree.duplicateNode]
    split
    · exact h
    · exact Inv.selectNode (Inv.updateElem (h.addNode _ _ _) _ _ (by intro e; rfl)) _
  | centerCanvas env => exact h.centerCanvas env
  | closeNodePanel => exact h.congr rfl rfl rfl rfl
  | saveNodeChanges n c sz d df =>
    simp only [SkillTree.step, SkillTree.saveNodeChanges]
    split
    · exact h
    · exact Inv.closeNodePanel (Inv.updateElem h _ _ (by intro e; rfl))
  | updateSelectedNode n c sz d =>
    simp only [SkillTree.step, SkillTree.updateSelectedNode]
    split
    · exact h
    · exact Inv.updateElem h _ _ (by intro e; rfl)
  | loadTree parsed =>
    cases parsed with
    | none => exact h
    | some t => exact h.loadTreeData t
  | clearCanvas env confirmed =>
    simp only [SkillTree.step, SkillTree.clearCanvas]
    split
    · exact Inv.addNode h.removeAll.closeNodePanel _ _ _
    · exact h

theorem Reachable.inv {s : State} (h : Reachable s) : Inv s := by
  induction h with
  | init env => exact Inv.init env
  | step op _ _ ih => exact ih.step op


theorem Reachable.run {s : State} (h : Reachable s) (ops : List Op) :
    runEnabled s ops = true → Reachable (run s ops) := by
  induction ops generalizing s with
  | nil => intro _; exact h
  | cons op rest ih =>
    intro he
    simp only [runEnabled, Bool.and_eq_true] at he
    exact ih (Reachable.step op h he.1) he.2

theorem heap_ids_eq {s : State} (h : Inv s) :
    s.heap.map (fun e => e.id) = (List.range s.heap.length).map nodeId := by
  apply List.ext_getElem
  · simp
  · intro i h1 h2
    have hi : i < s.heap.length := by simpa using h1
    have := h.ids i hi
    simp only [State.elem, List.getD_eq_getElem?_getD, List.getElem?_eq_getElem hi,
      Option.getD_some] at this
    simp [this]

theorem elem_selectNode (s : State) (r i : Ref) : (selectNode s r).elem i = s.elem i := rfl

theorem elem_closeNodePanel (s : State) (i : Ref) : (closeNodePanel s).elem i = s.elem i := rfl

theorem loadNodes_some (l : List NodeData) : ∀ s : State,
    (loadNodes s (l.map some)).2 = false ∧
    (loadNodes s (l.map some)).1.nodes = s.nodes ++ List.range' s.heap.length l.length ∧
    (loadNodes s (l.map some)).1.heap.map attrs = s.heap.map attrs ++ l.map dataAttrs ∧
    (loadNodes s (l.map some)).1.connections = s.connections := by
  induction l with
  | nil => intro s; simp [loadNodes]
  | cons d rest ih =>
    intro s
    simp only [List.map_cons, loadNodes]
    obtain ⟨h1, h2, h3, h4⟩ := ih ((addNode s d.x d.y (d.name.getD "New Node")).1.updateElem
      (addNode s d.x d.y (d.name.getD "New Node")).2 fun e =>
      { e with color := d.color, size := d.size, description := d.description,
               difficulty := d.difficulty })
    refine ⟨h1, ?_, ?_, ?_⟩
    · rw [h2]
      simp [State.updateElem, addNode, List.range'_succ]
    · rw [h3]
      simp [State.updateElem, addNode, State.elem, attrs, dataAttrs]
    · rw [h4]; rfl

theorem loadConnections_some (l : List ConnData) : ∀ s : State,
    (loadConnections s (l.map some)).2 = false ∧
    (loadConnections s (l.map some)).1.nodes = s.nodes ∧
    (loadConnections s (l.map some)).1.heap = s.heap := by
  induction l with
  | nil => intro s; simp [loadConnections]
  | cons c rest ih =>
    intro s
    simp only [List.map_cons, loadConnections]
    split
    · obtain ⟨h1, h2, h3⟩ := ih (createConnection s _ _)
      exact ⟨h1, h2, h3⟩
    · exact ih s

theorem map_range'_getD {α β : Type} (f : α → β) (d : α) (H : List α) (A B : List β)
    (h : H.map f = A ++ B) :
    (List.range' A.length B.length).map (fun r => f (H.getD r d)) = B := by
  apply List.ext_getElem
  · simp
  · intro i h1 h2
    have hlen : H.length = A.length + B.length := by
      have := congrArg List.length h
      simpa using this
    have hi : A.length + i < H.length := by omega
    have e1 : (H.map f)[A.length + i]? = (A ++ B)[A.length + i]? := by rw [h]
    simp only [List.getElem?_map, List.getElem?_eq_getElem hi, Option.map_some'] at e1
    rw [List.getElem?_append_right (Nat.le_add_right _ _)] at e1
    simp only [Nat.add_sub_cancel_left, List.getElem?_eq_getElem h2, Option.some.injEq] at e1
    simp [List.getD_eq_getElem?_getD, List.getElem?_eq_getElem hi, e1]

theorem updateElem_id (s : State) (r i : Ref) (f : Elem → Elem) (hf : ∀ e, (f e).id = e.id) :
    ((s.updateElem r f).elem i).id = (s.elem i).id := by
  rw [elem_updateElem]
  split
  · rename_i hc; rw [hf, hc.1]
  · rfl

theorem foldUpdate_keeps (f : Elem → Elem) (hf : ∀ e, (f e).id = e.id) (l : List Ref) :
    ∀ s : State,
      (l.foldl (fun st node => st.updateElem node f) s).nodes = s.nodes ∧
      (l.foldl (fun st node => st.updateElem node f) s).connections = s.connections ∧
      (l.foldl (fun st node => st.updateElem node f) s).isConnecting = s.isConnecting ∧
      (l.foldl (fun st node => st.updateElem node f) s).connectionStart = s.connectionStart ∧
      (l.foldl (fun st node => st.updateElem node f) s).selectedNode = s.selectedNode ∧
      ∀ i, ((l.foldl (fun st node => st.updateElem node f) s).elem i).id = (s.elem i).id := by
  induction l with
  | nil => intro s; simp
  | cons a rest ih =>
    intro s
    obtain ⟨h1, h2, h3, h4, h5, h6⟩ := ih (s.updateElem a f)
    refine ⟨h1, h2, h3, h4, h5, fun i => ?_⟩
    rw [List.foldl_cons, h6 i, updateElem_id s a i f hf]

theorem ConnectionsResolve.mono {s t : State} (h : ConnectionsResolve s)
    (hn : ∀ r ∈ s.nodes, r ∈ t.nodes ∧ (t.elem r).id = (s.elem r).id)
    (hc : t.connections = s.connections) : ConnectionsResolve t := by
  intro c hmem
  rw [hc] at hmem
  obtain ⟨⟨a, ha, ha'⟩, ⟨b, hb, hb'⟩⟩ := h c hmem
  exact ⟨⟨a, (hn a ha).1, (hn a ha).2.trans ha'⟩, ⟨b, (hn b hb).1, (hn b hb).2.trans hb'⟩⟩

theorem ConnectionsResolve.of_nil {s : State} (h : s.connections = []) : ConnectionsResolve s := by
  intro c hmem; rw [h] at hmem; exact absurd hmem (List.not_mem_nil c)

theorem ConnectionsResolve.resolve_createConnection {s : State} (h : ConnectionsResolve s) (a b : Ref)
    (ha : a ∈ s.nodes) (hb : b ∈ s.nodes) :
    ConnectionsResolve (createConnection s (DomRef.node a) (DomRef.node b)) := by
  intro c hmem
  have hmem' : c ∈ s.connections ++ [(⟨connectionId s.connectionCounter, (s.elem a).id,
      (s.elem b).id, DomRef.node a, DomRef.node b⟩ : Connection)] := hmem
  rcases List.mem_append.mp hmem' with hc | hc
  · exact h c hc
  · rw [List.mem_singleton] at hc
    subst hc
    exact ⟨⟨a, ha, rfl⟩, ⟨b, hb, rfl⟩⟩

theorem ConnectionsResolve.resolve_deleteSelectedNode {s : State} (h : ConnectionsResolve s) :
    ConnectionsResolve (deleteSelectedNode s) := by
  unfold SkillTree.deleteSelectedNode
  split
  · exact h
  · rename_i sel hsel
    intro c hmem
    have hmem' : c ∈ s.connections.filter fun conn =>
        if conn.from_ = (s.elem sel).id ∨ conn.to_ = (s.elem sel).id then false else true := hmem
    obtain ⟨hc, hp⟩ := List.mem_filter.mp hmem'
    have hne : ¬ (c.from_ = (s.elem sel).id ∨ c.to_ = (s.elem sel).id) := by
      intro hor; simp [hor] at hp
    obtain ⟨⟨a, ha, ha'⟩, ⟨b, hb, hb'⟩⟩ := h c hc
    refine ⟨⟨a, ?_, ha'⟩, ⟨b, ?_, hb'⟩⟩
    · show a ∈ s.nodes.filter fun node => decide (node ≠ sel)
      refine List.mem_filter.mpr ⟨ha, ?_⟩
      have : a ≠ sel := fun e => hne (Or.inl (by rw [← ha', e]))
      simpa using this
    · show b ∈ s.nodes.filter fun node => decide (node ≠ sel)
      refine List.mem_filter.mpr ⟨hb, ?_⟩
      have : b ≠ sel := fun e => hne (Or.inr (by rw [← hb', e]))
      simpa using this

theorem getElementById_some {s : State} {id : String} {d : DomRef}
    (h : getElementById s id = some d) :
    (∃ r, d = DomRef.node r ∧ r ∈ s.dom ∧ (s.elem r).id = id) ∨
    (d = DomRef.page id ∧ id ∈ s.pageBefore ++ s.pageAfter) := by
  unfold getElementById at h
  split at h
  · cases h
  · split at h
    · rename_i hb
      cases h
      exact Or.inr ⟨rfl, List.mem_append_left _ hb⟩
    · split at h
      · rename_i r hr
        cases h
        refine Or.inl ⟨r, rfl, List.mem_of_find?_eq_some hr, ?_⟩
        have := List.find?_some hr
        simpa using this
      · split at h
        · rename_i ha
          cases h
          exact Or.inr ⟨rfl, List.mem_append_right _ ha⟩
        · cases h

theorem getElementById_node {s : State} {id : String} {d : DomRef}
    (h : getElementById s id = some d) (hp : id ∉ s.pageBefore ++ s.pageAfter) :
    ∃ r, d = DomRef.node r ∧ r ∈ s.dom ∧ (s.elem r).id = id := by
  rcases getElementById_some h with h1 | h1
  · exact h1
  · exact absurd h1.2 hp

theorem ConnectionsResolve.resolve_loadConnections (l : List (Option ConnData)) :
    ∀ s : State, s.dom = s.nodes →
      (∀ c, some c ∈ l → c.from_ ∉ s.pageBefore ++ s.pageAfter ∧
        c.to_ ∉ s.pageBefore ++ s.pageAfter) →
      ConnectionsResolve s →
      ConnectionsResolve (loadConnections s l).1 ∧
      (loadConnections s l).1.isConnecting = s.isConnecting := by
  induction l with
  | nil => intro s _ _ h; exact ⟨h, rfl⟩
  | cons a rest ih =>
    intro s hd hp h
    cases a with
    | none => exact ⟨h, rfl⟩
    | some c =>
      have hp' : ∀ c', some c' ∈ rest → c'.from_ ∉ s.pageBefore ++ s.pageAfter ∧
          c'.to_ ∉ s.pageBefore ++ s.pageAfter :=
        fun c' hc' => hp c' (List.mem_cons_of_mem _ hc')
      simp only [SkillTree.loadConnections]
      split
      · rename_i f t hf ht
        obtain ⟨a, rfl, ha, -⟩ := getElementById_node hf (hp c (List.mem_cons_self _ _)).1
        obtain ⟨b, rfl, hb, -⟩ := getElementById_node ht (hp c (List.mem_cons_self _ _)).2
        exact ih (SkillTree.createConnection s (DomRef.node a) (DomRef.node b)) hd hp'
          (h.resolve_createConnection a b (hd ▸ ha) (hd ▸ hb))
      · exact ih s hd hp' h

theorem loadNodes_keeps (l : List (Option NodeData)) : ∀ s : State,
    (loadNodes s l).1.connections = s.connections ∧
    (loadNodes s l).1.isConnecting = s.isConnecting ∧
    (loadNodes s l).1.pageBefore = s.pageBefore ∧
    (loadNodes s l).1.pageAfter = s.pageAfter := by
  induction l with
  | nil => intro s; exact ⟨rfl, rfl, rfl, rfl⟩
  | cons a rest ih =>
    intro s
    cases a with
    | none => exact ⟨rfl, rfl, rfl, rfl⟩
    | some d =>
      simp only [SkillTree.loadNodes]
      obtain ⟨h1, h2, h3, h4⟩ := ih ((addNode s d.x d.y (d.name.getD "New Node")).1.updateElem
        (addNode s d.x d.y (d.name.getD "New Node")).2 fun e =>
        { e with color := d.color, size := d.size, description := d.description,
                 difficulty := d.difficulty })
      exact ⟨h1, h2, h3, h4⟩

theorem mem_connectionIds {t : TreeData} {cs : List (Option ConnData)} {c : ConnData}
    (ht : t.connections = some cs) (hc : some c ∈ cs) :
    c.from_ ∈ t.connectionIds ∧ c.to_ ∈ t.connectionIds := by
  unfold TreeData.connectionIds
  rw [ht]
  constructor
  · exact List.mem_flatMap.mpr ⟨some c, hc, List.mem_cons_self _ _⟩
  · exact List.mem_flatMap.mpr ⟨some c, hc, List.mem_cons_of_mem _ (List.mem_cons_self _ _)⟩

theorem loadTreeData_resolves {s : State} (h : Inv s) (t : TreeData)
    (hp : ∀ id ∈ t.connectionIds, id ∉ s.pageBefore ++ s.pageAfter) :
    ConnectionsResolve (loadTreeData s t).1 ∧
    (loadTreeData s t).1.isConnecting = s.isConnecting := by
  have h0 : (removeAll s).connections = [] := rfl
  unfold SkillTree.loadTreeData
  cases t.nodes with
  | none => exact ⟨ConnectionsResolve.of_nil h0, rfl⟩
  | some ns =>
    have hk := loadNodes_keeps ns (removeAll s)
    have hnil : ConnectionsResolve (loadNodes (removeAll s) ns).1 :=
      ConnectionsResolve.of_nil (hk.1.trans h0)
    simp only
    split
    · exact ⟨hnil, hk.2.1⟩
    · cases hcs : t.connections with
      | none => exact ⟨hnil, hk.2.1⟩
      | some cs =>
        have hpg : ∀ c, some c ∈ cs →
            c.from_ ∉ (loadNodes (removeAll s) ns).1.pageBefore ++
              (loadNodes (removeAll s) ns).1.pageAfter ∧
            c.to_ ∉ (loadNodes (removeAll s) ns).1.pageBefore ++
              (loadNodes (removeAll s) ns).1.pageAfter := by
          intro c hc
          rw [hk.2.2.1, hk.2.2.2]
          exact ⟨hp _ (mem_connectionIds hcs hc).1, hp _ (mem_connectionIds hcs hc).2⟩
        have := ConnectionsResolve.resolve_loadConnections cs (loadNodes (removeAll s) ns).1
          (Inv.loadNodes ns h.removeAll).dom hpg hnil
        exact ⟨this.1, this.2.trans hk.2.1⟩

theorem ConnectionsResolve.resolve_addNode {s : State} (hi : Inv s) (h : ConnectionsResolve s)
    (x y : Px) (name : String) : ConnectionsResolve (addNode s x y name).1 := by
  refine h.mono (fun r hr => ⟨?_, ?_⟩) rfl
  · show r ∈ s.nodes ++ [s.heap.length]
    exact List.mem_append_left _ hr
  · rw [elem_addNode_old s x y name r (hi.bound r hr)]

theorem ConnectionsResolve.resolve_updateElem {s : State} (h : ConnectionsResolve s) (r : Ref)
    (f : Elem → Elem) (hf : ∀ e, (f e).id = e.id) : ConnectionsResolve (s.updateElem r f) :=
  h.mono (fun i hi => ⟨hi, updateElem_id s r i f hf⟩) rfl

theorem ConnectionsResolve.resolve_selectNode {s : State} (h : ConnectionsResolve s) (r : Ref) :
    ConnectionsResolve (selectNode s r) :=
  h.mono (fun _ hr => ⟨hr, rfl⟩) rfl

theorem ConnectionsResolve.resolve_closeNodePanel {s : State} (h : ConnectionsResolve s) :
    ConnectionsResolve (closeNodePanel s) :=
  h.mono (fun _ hr => ⟨hr, rfl⟩) rfl

theorem apart_step {s : State} (op : Op) (hi : Inv s) (hc : ConnectionsResolve s)
    (hg : GestureResolves s) (he : op.enabled s = true)
    (ha : s.isConnecting = true → op.removesNodes = false) (hp : op.namesPage s = false) :
    ConnectionsResolve (step s op) ∧ GestureResolves (step s op) := by
  cases op with
  | canvasClick env cx cy =>
    simp only [step, handleCanvasClick]
    split
    · refine ⟨hc.resolve_addNode hi _ _ _, fun h1 st h2 => ?_⟩
      exact List.mem_append_left _ (hg h1 st h2)
    · exact ⟨hc, hg⟩
  | nodeClick node => exact ⟨hc.resolve_selectNode node, hg⟩
  | drag env node move =>
    simp only [step, dragNode]
    split
    · exact ⟨hc, hg⟩
    · cases move with
      | none =>
        exact ⟨ConnectionsResolve.resolve_updateElem (hc.resolve_selectNode node) _ _
          (by intro e; rfl), hg⟩
      | some delta =>
        exact ⟨ConnectionsResolve.resolve_updateElem (ConnectionsResolve.resolve_updateElem
          (hc.resolve_selectNode node) _ _ (by intro e; rfl)) _ _ (by intro e; rfl), hg⟩
  | canvasMouseDown target =>
    cases target with
    | none =>
      simp only [step, handleCanvasMouseDown]
      split
      · rename_i h1; cases h1
      · exact ⟨hc, hg⟩
    | some node =>
      have hn : node ∈ s.nodes := by
        have : node ∈ s.dom := by simpa [Op.enabled] using he
        exact hi.dom ▸ this
      simp only [step, handleCanvasMouseDown]
      split
      · rename_i n h1 h2
        cases h2
        refine ⟨hc.mono (fun r hr => ⟨hr, rfl⟩) rfl, fun _ st h2 => ?_⟩
        have : some node = some st := h2
        cases this
        exact hn
      · exact ⟨hc, hg⟩
  | canvasMouseUp target =>
    simp only [step, handleCanvasMouseUp]
    split
    · rename_i start h1 h2
      have hstart : start ∈ s.nodes := hg h1 start h2
      refine ⟨?_, fun h3 => by cases h3⟩
      cases target with
      | none => exact hc.mono (fun r hr => ⟨hr, rfl⟩) rfl
      | some t =>
        have ht : t ∈ s.nodes := by
          have : t ∈ s.dom := by simpa [Op.enabled] using he
          exact hi.dom ▸ this
        simp only
        split
        · exact ConnectionsResolve.mono (hc.resolve_createConnection start t hstart ht)
            (fun r hr => ⟨hr, rfl⟩) rfl
        · exact hc.mono (fun r hr => ⟨hr, rfl⟩) rfl
    · exact ⟨hc, hg⟩
  | setTool tool =>
    exact ⟨hc.mono (fun r hr => ⟨hr, rfl⟩) rfl, fun h1 => by cases h1⟩
  | keyDown key =>
    cases key with
    | delete =>
      have hnc : s.isConnecting ≠ true := fun h1 => by
        have := ha h1
        simp [Op.removesNodes] at this
      simp only [step, handleKeyDown]
      split
      · refine ⟨hc.resolve_deleteSelectedNode, fun h1 => absurd ?_ hnc⟩
        unfold deleteSelectedNode at h1
        split at h1
        · exact h1
        · exact h1
      · exact ⟨hc, hg⟩
      · rename_i h1; cases h1
      · rename_i h1; cases h1
    | escape => exact ⟨hc.resolve_closeNodePanel, hg⟩
    | other => exact ⟨hc, hg⟩
  | deleteSelectedNode =>
    have hnc : s.isConnecting ≠ true := fun h1 => by
      have := ha h1
      simp [Op.removesNodes] at this
    refine ⟨hc.resolve_deleteSelectedNode, fun h1 => absurd ?_ hnc⟩
    simp only [step] at h1
    unfold deleteSelectedNode at h1
    split at h1
    · exact h1
    · exact h1
  | duplicateNode env =>
    simp only [step, duplicateNode]
    split
    · exact ⟨hc, hg⟩
    · refine ⟨ConnectionsResolve.resolve_selectNode (ConnectionsResolve.resolve_updateElem
        (hc.resolve_addNode hi _ _ _) _ _ (by intro e; rfl)) _, fun h1 st h2 => ?_⟩
      exact List.mem_append_left _ (hg h1 st h2)
  | centerCanvas env =>
    simp only [step, centerCanvas]
    split
    · exact ⟨hc, hg⟩
    · obtain ⟨k1, k2, k3, k4, -, k6⟩ := foldUpdate_keeps (moveNode env
        (jsSub (JsNum.fin ((env.offsetWidth : ℚ) / 2))
          (jsHalf (jsAdd (nodeBounds s env).minX (nodeBounds s env).maxX)))
        (jsSub (JsNum.fin ((env.offsetHeight : ℚ) / 2))
          (jsHalf (jsAdd (nodeBounds s env).minY (nodeBounds s env).maxY))))
        (by intro e; rfl) s.nodes s
      refine ⟨hc.mono (fun r hr => ⟨by rw [k1]; exact hr, k6 r⟩) k2, fun h1 st h2 => ?_⟩
      rw [k3] at h1
      rw [k4] at h2
      rw [k1]
      exact hg h1 st h2
  | closeNodePanel => exact ⟨hc.resolve_closeNodePanel, hg⟩
  | saveNodeChanges n c sz d df =>
    simp only [step, saveNodeChanges]
    split
    · exact ⟨hc, hg⟩
    · exact ⟨ConnectionsResolve.resolve_closeNodePanel
        (hc.resolve_updateElem _ _ (by intro e; rfl)), hg⟩
  | updateSelectedNode n c sz d =>
    simp only [step, updateSelectedNode]
    split
    · exact ⟨hc, hg⟩
    · exact ⟨hc.resolve_updateElem _ _ (by intro e; rfl), hg⟩
  | loadTree parsed =>
    have hnc : s.isConnecting ≠ true := fun h1 => by
      have := ha h1
      simp [Op.removesNodes] at this
    cases parsed with
    | none => exact ⟨hc, hg⟩
    | some t =>
      have hpg : ∀ id ∈ t.connectionIds, id ∉ s.pageBefore ++ s.pageAfter := by
        intro id hid hmem
        have h1 : (t.connectionIds.any fun id =>
            decide (id ∈ s.pageBefore ++ s.pageAfter)) = false := hp
        rw [List.any_eq_false] at h1
        exact h1 id hid (by simpa using hmem)
      have := loadTreeData_resolves hi t hpg
      exact ⟨this.1, fun h1 => absurd (this.2 ▸ h1) hnc⟩
  | clearCanvas env confirmed =>
    cases confirmed with
    | false => exact ⟨hc, hg⟩
    | true =>
      have hnc : s.isConnecting ≠ true := fun h1 => by
        have := ha h1
        simp [Op.removesNodes] at this
      exact ⟨ConnectionsResolve.of_nil rfl, fun h1 => absurd h1 hnc⟩

theorem ReachableApart.all {s : State} (h : ReachableApart s) :
    Reachable s ∧ ConnectionsResolve s ∧ GestureResolves s := by
  induction h with
  | init env =>
    exact ⟨Reachable.init env, ConnectionsResolve.of_nil rfl, fun h1 => by cases h1⟩
  | step op _ he ha hp ih =>
    have := apart_step op ih.1.inv ih.2.1 ih.2.2 he ha hp
    exact ⟨Reachable.step op ih.1 he, this.1, this.2⟩

theorem ReachableApart.run_apart {s : State} (h : ReachableApart s) (ops : List Op) :
    runApart s ops = true → ReachableApart (SkillTree.run s ops) := by
  induction ops generalizing s with
  | nil => intro _; exact h
  | cons op rest ih =>
    intro he
    simp only [runApart, Bool.and_eq_true, Bool.or_eq_true, Bool.not_eq_true'] at he
    refine ih (ReachableApart.step op h he.1.1.1 (fun h1 => ?_) he.1.2) he.2
    rcases he.1.1.2 with h2 | h2
    · rw [h1] at h2; cases h2
    · exact h2

theorem mathMin_nan_right (a : JsNum) : mathMin a JsNum.nan = JsNum.nan := by
  cases a <;> rfl

theorem mathMax_nan_right (a : JsNum) : mathMax a JsNum.nan = JsNum.nan := by
  cases a <;> rfl

theorem jsAdd_nan_right (a : JsNum) : jsAdd a JsNum.nan = JsNum.nan := by
  cases a <;> rfl

theorem foldl_mathMin_nan (ys : List JsNum) : ys.foldl mathMin JsNum.nan = JsNum.nan := by
  induction ys with
  | nil => rfl
  | cons y ys ih => simpa [List.foldl_cons, mathMin] using ih

theorem foldl_mathMax_nan (ys : List JsNum) : ys.foldl mathMax JsNum.nan = JsNum.nan := by
  induction ys with
  | nil => rfl
  | cons y ys ih => simpa [List.foldl_cons, mathMax] using ih

theorem foldl_mathMin_of_nan_mem (ys : List JsNum) (h : JsNum.nan ∈ ys) :
    ∀ a, ys.foldl mathMin a = JsNum.nan := by
  induction ys with
  | nil => exact absurd h (List.not_mem_nil _)
  | cons y ys ih =>
    intro a
    rcases List.mem_cons.mp h with h1 | h1
    · rw [List.foldl_cons, ← h1, mathMin_nan_right, foldl_mathMin_nan]
    · rw [List.foldl_cons]; exact ih h1 _

theorem foldl_mathMax_of_nan_mem (ys : List JsNum) (h : JsNum.nan ∈ ys) :
    ∀ a, ys.foldl mathMax a = JsNum.nan := by
  induction ys with
  | nil => exact absurd h (List.not_mem_nil _)
  | cons y ys ih =>
    intro a
    rcases List.mem_cons.mp h with h1 | h1
    · rw [List.foldl_cons, ← h1, mathMax_nan_right, foldl_mathMax_nan]
    · rw [List.foldl_cons]; exact ih h1 _

theorem foldl_mathMin_fin (zs : List ℚ) : ∀ a : ℚ,
    (zs.map JsNum.fin).foldl mathMin (JsNum.fin a) = JsNum.fin (zs.foldl min a) := by
  induction zs with
  | nil => intro a; rfl
  | cons z zs ih => intro a; simp only [List.map_cons, List.foldl_cons, mathMin]; exact ih _

theorem foldl_mathMax_fin (zs : List ℚ) : ∀ a : ℚ,
    (zs.map JsNum.fin).foldl mathMax (JsNum.fin a) = JsNum.fin (zs.foldl max a) := by
  induction zs with
  | nil => intro a; rfl
  | cons z zs ih => intro a; simp only [List.map_cons, List.foldl_cons, mathMax]; exact ih _

theorem foldl_min_shift (k : ℚ) (zs : List ℚ) : ∀ a : ℚ,
    (zs.map (fun z => z + k)).foldl min (a + k) = zs.foldl min a + k := by
  induction zs with
  | nil => intro a; rfl
  | cons z zs ih =>
    intro a
    simp only [List.map_cons, List.foldl_cons, min_add_add_right]
    exact ih _

theorem foldl_max_shift (k : ℚ) (zs : List ℚ) : ∀ a : ℚ,
    (zs.map (fun z => z + k)).foldl max (a + k) = zs.foldl max a + k := by
  induction zs with
  | nil => intro a; rfl
  | cons z zs ih =>
    intro a
    simp only [List.map_cons, List.foldl_cons, max_add_add_right]
    exact ih _

theorem none_mem_or_all_some (xs : List Px) : none ∈ xs ∨ ∃ qs : List ℚ, xs = qs.map some := by
  induction xs with
  | nil => exact Or.inr ⟨[], rfl⟩
  | cons x xs ih =>
    cases x with
    | none => exact Or.inl (List.mem_cons_self _ _)
    | some q =>
      rcases ih with h | ⟨qs, h⟩
      · exact Or.inl (List.mem_cons_of_mem _ h)
      · exact Or.inr ⟨q :: qs, by rw [h]; rfl⟩

theorem axisOffset_congr (rd rd' : Px → JsNum) (c : ℚ) (xs : List Px)
    (h : ∀ p ∈ xs, rd p = rd' p) : axisOffset rd c xs = axisOffset rd' c xs := by
  unfold axisOffset
  rw [List.map_congr_left h]

theorem parseInt_of_exact (env : Env) (p : Px) (h : ReadsExactly env p) :
    parseInt env p = idealInt p := by
  cases p with
  | none => rfl
  | some q => show JsNum.fin _ = JsNum.fin _; rw [h q rfl]

theorem axisOffset_of_none_mem (env : Env) (c : ℚ) (xs : List Px) (h : none ∈ xs) :
    axisOffset (parseInt env) c xs = JsNum.nan := by
  have hm : JsNum.nan ∈ xs.map (parseInt env) := List.mem_map.mpr ⟨none, h, rfl⟩
  unfold axisOffset
  rw [foldl_mathMin_of_nan_mem _ hm, foldl_mathMax_of_nan_mem _ hm]
  rfl

theorem axisMove_nan (rd : Px → JsNum) (p : Px) : axisMove rd JsNum.nan p = p := by
  unfold axisMove
  rw [jsAdd_nan_right]
  rfl

theorem truncQ_intCast (k : ℤ) : truncQ (k : ℚ) = k := by
  unfold truncQ
  split
  · exact Int.floor_intCast k
  · exact Int.ceil_intCast k

theorem truncQ_int_add (k : ℤ) (o : ℚ) (h : 0 ≤ (k : ℚ) + o) :
    truncQ ((k : ℚ) + o) = k + ⌊o⌋ := by
  unfold truncQ
  rw [if_pos h, Int.floor_int_add]

theorem truncQ_int_add_nonpos (k : ℤ) (o : ℚ) (h : (k : ℚ) + o ≤ 0) :
    truncQ ((k : ℚ) + o) = k + ⌈o⌉ := by
  unfold truncQ
  split
  · rename_i h0
    have e : (k : ℚ) + o = 0 := le_antisymm h h0
    have eo : o = ((-k : ℤ) : ℚ) := by push_cast; linarith
    rw [e, eo, Int.floor_zero, Int.ceil_intCast]
    ring
  · rw [add_comm, Int.ceil_add_int, add_comm]

theorem axisOffset_all_some (rd : Px → JsNum) (f : ℚ → ℚ) (c : ℚ) (q0 : ℚ) (qt : List ℚ)
    (hf : ∀ q ∈ q0 :: qt, rd (some q) = JsNum.fin (f q)) :
    axisOffset rd c ((q0 :: qt).map some) =
      JsNum.fin (c - ((qt.map f).foldl min (f q0) + (qt.map f).foldl max (f q0)) / 2) := by
  have e : (((q0 :: qt).map some).map rd) = JsNum.fin (f q0) :: (qt.map f).map JsNum.fin := by
    rw [List.map_map, List.map_map]
    show (rd ∘ some) q0 :: qt.map (rd ∘ some) = JsNum.fin (f q0) :: qt.map (JsNum.fin ∘ f)
    congr 1
    · exact hf q0 (List.mem_cons_self _ _)
    · exact List.map_congr_left (fun q hq => hf q (List.mem_cons_of_mem _ hq))
  unfold axisOffset
  rw [e]
  simp only [List.foldl_cons, mathMin, mathMax, foldl_mathMin_fin, foldl_mathMax_fin]
  rfl

theorem floor_eq_of_ceil_eq (o : ℚ) (h : ⌈o⌉ = ⌊o⌋) : o = ((⌊o⌋ : ℤ) : ℚ) := by
  apply le_antisymm
  · rw [← h]; exact Int.le_ceil o
  · exact Int.floor_le o

theorem axis_idem (env : Env) (c : ℚ) (xs : List Px)
    (hr : ∀ p ∈ xs, ReadsExactly env
      (axisMove (parseInt env) (axisOffset (parseInt env) c xs) p)) :
    (∀ p ∈ xs, axisMove (parseInt env) (axisOffset (parseInt env) c
        (xs.map (axisMove (parseInt env) (axisOffset (parseInt env) c xs))))
        (axisMove (parseInt env) (axisOffset (parseInt env) c xs) p) =
      axisMove (parseInt env) (axisOffset (parseInt env) c xs) p) ↔
    AxisSettled (xs.map (axisMove (parseInt env) (axisOffset (parseInt env) c xs))) := by
  rcases none_mem_or_all_some xs with hn | ⟨qs, hq⟩
  · have e1 := axisOffset_of_none_mem env c xs hn
    have e2 : xs.map (axisMove (parseInt env) (axisOffset (parseInt env) c xs)) = xs := by
      rw [e1]
      conv_rhs => rw [← List.map_id xs]
      exact List.map_congr_left (fun p _ => axisMove_nan _ p)
    rw [e2]
    refine ⟨fun _ => Or.inl hn, fun _ p _ => ?_⟩
    rw [e1, axisMove_nan, axisMove_nan]
  · cases qs with
    | nil =>
      subst hq
      refine ⟨fun _ => Or.inr (Or.inr (Or.inl fun p hp => ?_)), fun _ p hp => ?_⟩
      · exact absurd hp (List.not_mem_nil _)
      · exact absurd hp (List.not_mem_nil _)
    | cons q0 qt =>
      subst hq
      have e1 := axisOffset_all_some (parseInt env) (fun q => (env.cssInt q : ℚ)) c q0 qt
        (fun q _ => rfl)
      generalize hm : (qt.map fun q => (env.cssInt q : ℚ)).foldl min (env.cssInt q0 : ℚ) = m
        at e1
      generalize hM : (qt.map fun q => (env.cssInt q : ℚ)).foldl max (env.cssInt q0 : ℚ) = M
        at e1
      generalize ho : c - (m + M) / 2 = o at e1
      rw [e1] at hr ⊢
      have hmove : ∀ q', axisMove (parseInt env) (JsNum.fin o) (some q') =
          some ((env.cssInt q' : ℚ) + o) := fun q' => rfl
      have e2 : ((q0 :: qt).map some).map (axisMove (parseInt env) (JsNum.fin o)) =
          ((q0 :: qt).map fun q' => (env.cssInt q' : ℚ) + o).map some := by
        rw [List.map_map, List.map_map]
        exact List.map_congr_left (fun q' _ => hmove q')
      have hrd : ∀ q' ∈ q0 :: qt, parseInt env (some ((env.cssInt q' : ℚ) + o)) =
          JsNum.fin (truncQ ((env.cssInt q' : ℚ) + o) : ℚ) := by
        intro q' hq'
        have := hr (some q') (List.mem_map.mpr ⟨q', hq', rfl⟩)
        rw [hmove q'] at this
        exact parseInt_of_exact env _ this
      have e3 : axisOffset (parseInt env) c
          (((q0 :: qt).map fun q' => (env.cssInt q' : ℚ) + o).map some) =
          JsNum.fin (c - (((qt.map fun q' => (env.cssInt q' : ℚ) + o).map
              fun y => (truncQ y : ℚ)).foldl min (truncQ ((env.cssInt q0 : ℚ) + o) : ℚ) +
            ((qt.map fun q' => (env.cssInt q' : ℚ) + o).map
              fun y => (truncQ y : ℚ)).foldl max (truncQ ((env.cssInt q0 : ℚ) + o) : ℚ)) / 2) := by
        rw [List.map_cons]
        refine axisOffset_all_some (parseInt env) (fun y => (truncQ y : ℚ)) c _ _ ?_
        intro y hy
        rw [← List.map_cons (fun q' => (env.cssInt q' : ℚ) + o)] at hy
        obtain ⟨q', hq', rfl⟩ := List.mem_map.mp hy
        exact hrd q' hq'
      rw [e2]
      generalize hv : c - (((qt.map fun q' => (env.cssInt q' : ℚ) + o).map
              fun y => (truncQ y : ℚ)).foldl min (truncQ ((env.cssInt q0 : ℚ) + o) : ℚ) +
            ((qt.map fun q' => (env.cssInt q' : ℚ) + o).map
              fun y => (truncQ y : ℚ)).foldl max (truncQ ((env.cssInt q0 : ℚ) + o) : ℚ)) / 2 = v
        at e3
      have hsecond : ∀ q' ∈ q0 :: qt,
          axisMove (parseInt env) (JsNum.fin v) (some ((env.cssInt q' : ℚ) + o)) =
            some ((truncQ ((env.cssInt q' : ℚ) + o) : ℚ) + v) := by
        intro q' hq'
        unfold axisMove
        rw [hrd q' hq']
        rfl
      constructor
      · intro hid
        have hid' : ∀ q' ∈ q0 :: qt,
            (truncQ ((env.cssInt q' : ℚ) + o) : ℚ) + v = (env.cssInt q' : ℚ) + o := by
          intro q' hq'
          have := hid (some q') (List.mem_map.mpr ⟨q', hq', rfl⟩)
          rw [hmove q', e3, hsecond q' hq'] at this
          exact Option.some.inj this
        by_cases hint : ∃ n : ℤ, o = n
        · obtain ⟨n, rfl⟩ := hint
          refine Or.inr (Or.inl fun p hp y hy => ?_)
          obtain ⟨z, hz, hzy⟩ := List.mem_map.mp hp
          obtain ⟨q', _, rfl⟩ := List.mem_map.mp hz
          have hy' : p = some y := hy
          rw [← hzy] at hy'
          rw [← Option.some.inj hy']
          have e : (env.cssInt q' : ℚ) + (n : ℚ) = ((env.cssInt q' + n : ℤ) : ℚ) := by
            push_cast; rfl
          rw [e, truncQ_intCast]
        · by_cases hpos : ∀ p ∈ ((q0 :: qt).map
              fun q' => (env.cssInt q' : ℚ) + o).map some, ∀ y ∈ p, 0 ≤ y
          · exact Or.inr (Or.inr (Or.inl hpos))
          · by_cases hneg : ∀ p ∈ ((q0 :: qt).map
                fun q' => (env.cssInt q' : ℚ) + o).map some, ∀ y ∈ p, y ≤ 0
            · exact Or.inr (Or.inr (Or.inr hneg))
            · exfalso
              push_neg at hpos hneg
              obtain ⟨p1, hp1, y1, hy1, hlt⟩ := hpos
              obtain ⟨p2, hp2, y2, hy2, hgt⟩ := hneg
              obtain ⟨z1, hz1, hzy1⟩ := List.mem_map.mp hp1
              obtain ⟨q1, hq1, rfl⟩ := List.mem_map.mp hz1
              obtain ⟨z2, hz2, hzy2⟩ := List.mem_map.mp hp2
              obtain ⟨q2, hq2, rfl⟩ := List.mem_map.mp hz2
              have hy1' : p1 = some y1 := hy1
              have hy2' : p2 = some y2 := hy2
              rw [← hzy1] at hy1'
              rw [← hzy2] at hy2'
              have a1 := Option.some.inj hy1'
              have a2 := Option.some.inj hy2'
              rw [← a1] at hlt
              rw [← a2] at hgt
              have b1 := hid' q1 hq1
              have b2 := hid' q2 hq2
              rw [truncQ_int_add_nonpos _ _ (le_of_lt hlt)] at b1
              rw [truncQ_int_add _ _ (le_of_lt hgt)] at b2
              push_cast at b1 b2
              have hcf : ((⌈o⌉ : ℤ) : ℚ) = ((⌊o⌋ : ℤ) : ℚ) := by linarith
              have hcf' : ⌈o⌉ = ⌊o⌋ := by exact_mod_cast hcf
              exact hint ⟨⌊o⌋, floor_eq_of_ceil_eq o hcf'⟩
      · intro hset
        have hk : ∃ k : ℚ, ∀ q' ∈ q0 :: qt,
            (truncQ ((env.cssInt q' : ℚ) + o) : ℚ) = (env.cssInt q' : ℚ) + k := by
          have hmem : ∀ q' ∈ q0 :: qt, some ((env.cssInt q' : ℚ) + o) ∈
              ((q0 :: qt).map fun q' => (env.cssInt q' : ℚ) + o).map some :=
            fun q' hq' => List.mem_map.mpr ⟨_, List.mem_map.mpr ⟨q', hq', rfl⟩, rfl⟩
          rcases hset with h0 | h0 | h0 | h0
          · exfalso
            obtain ⟨z, _, hz⟩ := List.mem_map.mp h0
            cases hz
          · exact ⟨o, fun q' hq' => h0 _ (hmem q' hq') _ rfl⟩
          · refine ⟨((⌊o⌋ : ℤ) : ℚ), fun q' hq' => ?_⟩
            rw [truncQ_int_add _ _ (h0 _ (hmem q' hq') _ rfl)]
            push_cast; rfl
          · refine ⟨((⌈o⌉ : ℤ) : ℚ), fun q' hq' => ?_⟩
            rw [truncQ_int_add_nonpos _ _ (h0 _ (hmem q' hq') _ rfl)]
            push_cast; rfl
        obtain ⟨k, hk⟩ := hk
        have hv' : v = c - ((m + k) + (M + k)) / 2 := by
          rw [← hv]
          have l1 : ((qt.map fun q' => (env.cssInt q' : ℚ) + o).map fun y => (truncQ y : ℚ)) =
              (qt.map fun q => (env.cssInt q : ℚ)).map (fun z => z + k) := by
            rw [List.map_map, List.map_map]
            exact List.map_congr_left (fun q' hq' => hk q' (List.mem_cons_of_mem _ hq'))
          rw [l1, hk q0 (List.mem_cons_self _ _), foldl_min_shift, foldl_max_shift, hm, hM]
        intro p hp
        obtain ⟨q, hqmem, rfl⟩ := List.mem_map.mp hp
        rw [hmove q, e3, hsecond q hqmem, hk q hqmem, hv', ← ho]
        congr 1
        ring

theorem foldUpdate_elem (f : Elem → Elem) (l : List Ref) : ∀ s : State,
    l.Nodup → (∀ r ∈ l, r < s.heap.length) →
    ∀ i, (l.foldl (fun st node => st.updateElem node f) s).elem i =
      if i ∈ l then f (s.elem i) else s.elem i := by
  induction l with
  | nil => intro s _ _ i; simp
  | cons a rest ih =>
    intro s hnd hb i
    have hnd' := List.nodup_cons.mp hnd
    have hlen : (s.updateElem a f).heap.length = s.heap.length := by simp [State.updateElem]
    rw [List.foldl_cons, ih (s.updateElem a f) hnd'.2
      (fun r hr => by rw [hlen]; exact hb r (List.mem_cons_of_mem _ hr)) i]
    have ha : a < s.heap.length := hb a (List.mem_cons_self _ _)
    by_cases h1 : i ∈ rest
    · have hne : i ≠ a := fun e => hnd'.1 (e ▸ h1)
      rw [if_pos h1, if_pos (List.mem_cons_of_mem _ h1), elem_updateElem,
        if_neg (fun hc => hne hc.1)]
    · rw [if_neg h1, elem_updateElem]
      by_cases h2 : i = a
      · subst h2
        rw [if_pos ⟨rfl, ha⟩, if_pos (List.mem_cons_self _ _)]
      · rw [if_neg (fun hc => h2 hc.1), if_neg (fun hc => by
          rcases List.mem_cons.mp hc with h3 | h3
          · exact h2 h3
          · exact h1 h3)]

theorem nodeBounds_fold (s : State) (env : Env) (l : List Ref) : ∀ b : Bounds,
    (l.foldl (fun b node =>
      ({ minX := mathMin b.minX (parseInt env (s.elem node).left)
         maxX := mathMax b.maxX (parseInt env (s.elem node).left)
         minY := mathMin b.minY (parseInt env (s.elem node).top)
         maxY := mathMax b.maxY (parseInt env (s.elem node).top) } : Bounds)) b) =
    { minX := ((l.map fun r => (s.elem r).left).map (parseInt env)).foldl mathMin b.minX
      maxX := ((l.map fun r => (s.elem r).left).map (parseInt env)).foldl mathMax b.maxX
      minY := ((l.map fun r => (s.elem r).top).map (parseInt env)).foldl mathMin b.minY
      maxY := ((l.map fun r => (s.elem r).top).map (parseInt env)).foldl mathMax b.maxY } := by
  induction l with
  | nil => intro b; rfl
  | cons a rest ih => intro b; simp only [List.foldl_cons, List.map_cons]; rw [ih]

theorem centerCanvas_elem {s : State} (h : Inv s) (env : Env) (hne : ¬ s.nodes.length = 0) :
    (centerCanvas s env).nodes = s.nodes ∧
    ∀ i, (centerCanvas s env).elem i =
      if i ∈ s.nodes then
        { (s.elem i) with
            left := axisMove (parseInt env)
              (axisOffset (parseInt env) ((env.offsetWidth : ℚ) / 2) (lefts s)) (s.elem i).left
            top := axisMove (parseInt env)
              (axisOffset (parseInt env) ((env.offsetHeight : ℚ) / 2) (tops s)) (s.elem i).top }
      else s.elem i := by
  have hb : nodeBounds s env =
      { minX := ((lefts s).map (parseInt env)).foldl mathMin JsNum.posInf
        maxX := ((lefts s).map (parseInt env)).foldl mathMax JsNum.negInf
        minY := ((tops s).map (parseInt env)).foldl mathMin JsNum.posInf
        maxY := ((tops s).map (parseInt env)).foldl mathMax JsNum.negInf } :=
    nodeBounds_fold s env s.nodes _
  unfold centerCanvas
  rw [if_neg hne]
  simp only
  refine ⟨(foldUpdate_keeps _ (by intro e; rfl) s.nodes s).1, fun i => ?_⟩
  rw [foldUpdate_elem _ s.nodes s h.nodup h.bound i, hb]
  rfl

theorem heap_length_updateElem (s : State) (r : Ref) (f : Elem → Elem) :
    (s.updateElem r f).heap.length = s.heap.length := by
  simp [State.updateElem]

theorem foldUpdate_heap_length (f : Elem → Elem) (l : List Ref) : ∀ s : State,
    (l.foldl (fun st node => st.updateElem node f) s).heap.length = s.heap.length := by
  induction l with
  | nil => intro s; rfl
  | cons a rest ih =>
    intro s
    rw [List.foldl_cons, ih, heap_length_updateElem]

theorem loadNodes_selected (l : List (Option NodeData)) : ∀ s : State,
    (loadNodes s l).1.selectedNode = s.selectedNode ∧
    s.heap.length ≤ (loadNodes s l).1.heap.length := by
  induction l with
  | nil => intro s; exact ⟨rfl, Nat.le_refl _⟩
  | cons a rest ih =>
    intro s
    cases a with
    | none => exact ⟨rfl, Nat.le_refl _⟩
    | some d =>
      simp only [loadNodes]
      obtain ⟨h1, h2⟩ := ih ((addNode s d.x d.y (d.name.getD "New Node")).1.updateElem
        (addNode s d.x d.y (d.name.getD "New Node")).2 fun e =>
        { e with color := d.color, size := d.size, description := d.description,
                 difficulty := d.difficulty })
      refine ⟨h1, Nat.le_trans ?_ h2⟩
      rw [heap_length_updateElem]
      show s.heap.length ≤ (s.heap ++ [_]).length
      rw [List.length_append]
      exact Nat.le_add_right _ _

theorem loadConnections_selected (l : List (Option ConnData)) : ∀ s : State,
    (loadConnections s l).1.selectedNode = s.selectedNode ∧
    (loadConnections s l).1.heap = s.heap ∧
    (loadConnections s l).1.nodes = s.nodes := by
  induction l with
  | nil => intro s; exact ⟨rfl, rfl, rfl⟩
  | cons a rest ih =>
    intro s
    cases a with
    | none => exact ⟨rfl, rfl, rfl⟩
    | some c =>
      simp only [loadConnections]
      split
      · obtain ⟨h1, h2, h3⟩ := ih (createConnection s _ _)
        exact ⟨h1, h2, h3⟩
      · exact ih s

theorem loadTreeData_selected (s : State) (t : TreeData) :
    (loadTreeData s t).1.selectedNode = s.selectedNode ∧
    s.heap.length ≤ (loadTreeData s t).1.heap.length := by
  unfold loadTreeData
  cases t.nodes with
  | none => exact ⟨rfl, Nat.le_refl _⟩
  | some ns =>
    have hk := loadNodes_selected ns (removeAll s)
    simp only
    split
    · exact hk
    · cases t.connections with
      | none => exact hk
      | some cs =>
        obtain ⟨c1, c2, -⟩ := loadConnections_selected cs (loadNodes (removeAll s) ns).1
        exact ⟨c1.trans hk.1, by rw [c2]; exact hk.2⟩


theorem deleteSelectedNode_selectedNode (s : State) :
    (deleteSelectedNode s).selectedNode = none := by
  unfold deleteSelectedNode
  split
  · assumption
  · rfl

theorem heap_selectNode (s : State) (r : Ref) : (selectNode s r).heap = s.heap := rfl

theorem selected_in_heap_step {s : State} (op : Op) (hi : Inv s) (hsel : SelectedInHeap s)
    (he : op.enabled s = true) : SelectedInHeap (step s op) := by
  cases op with
  | canvasClick env cx cy =>
    simp only [step, handleCanvasClick]
    split
    · intro r hr
      show r < (s.heap ++ [_]).length
      rw [List.length_append]
      exact Nat.lt_of_lt_of_le (hsel r hr) (Nat.le_add_right _ _)
    · exact hsel
  | nodeClick node =>
    have hn : node ∈ s.dom := by simpa [Op.enabled] using he
    intro r hr
    have : some node = some r := hr
    cases this
    exact hi.bound node (hi.dom ▸ hn)
  | drag env node move =>
    have hn : node ∈ s.dom := by simpa [Op.enabled] using he
    simp only [step, dragNode]
    split
    · exact hsel
    · cases move with
      | none =>
        intro r hr
        rw [heap_length_updateElem]
        have : some node = some r := hr
        cases this
        exact hi.bound node (hi.dom ▸ hn)
      | some delta =>
        intro r hr
        rw [heap_length_updateElem, heap_length_updateElem]
        have : some node = some r := hr
        cases this
        exact hi.bound node (hi.dom ▸ hn)
  | canvasMouseDown target =>
    simp only [step, handleCanvasMouseDown]
    split
    · exact hsel
    · exact hsel
  | canvasMouseUp target =>
    simp only [step, handleCanvasMouseUp]
    split
    · cases target with
      | none => exact hsel
      | some t =>
        simp only
        split
        · exact hsel
        · exact hsel
    · exact hsel
  | setTool tool => exact hsel
  | keyDown key =>
    simp only [step, handleKeyDown]
    split
    · intro r hr
      rw [deleteSelectedNode_selectedNode] at hr
      cases hr
    · exact hsel
    · intro r hr; cases hr
    · exact hsel
  | deleteSelectedNode =>
    intro r hr
    simp only [step] at hr
    rw [deleteSelectedNode_selectedNode] at hr
    cases hr
  | duplicateNode env =>
    simp only [step, duplicateNode]
    split
    · exact hsel
    · intro r hr
      have : some s.heap.length = some r := hr
      cases this
      rw [heap_selectNode, heap_length_updateElem]
      show s.heap.length < (s.heap ++ [_]).length
      rw [List.length_append]
      exact Nat.lt_succ_self _
  | centerCanvas env =>
    simp only [step, centerCanvas]
    split
    · exact hsel
    · intro r hr
      rw [foldUpdate_heap_length]
      rw [(foldUpdate_keeps _ (by intro e; rfl) s.nodes s).2.2.2.2.1] at hr
      exact hsel r hr
  | closeNodePanel => intro r hr; cases hr
  | saveNodeChanges n c sz d df =>
    simp only [step, saveNodeChanges]
    split
    · exact hsel
    · intro r hr; cases hr
  | updateSelectedNode n c sz d =>
    simp only [step, updateSelectedNode]
    split
    · exact hsel
    · intro r hr
      rw [heap_length_updateElem]
      exact hsel r hr
  | loadTree parsed =>
    cases parsed with
    | none => exact hsel
    | some t =>
      intro r hr
      have := loadTreeData_selected s t
      exact Nat.lt_of_lt_of_le (hsel r (this.1 ▸ hr)) this.2
  | clearCanvas env confirmed =>
    cases confirmed with
    | false => exact hsel
    | true => intro r hr; cases hr

theorem reachable_selected_in_heap {s : State} (h : Reachable s) : SelectedInHeap s := by
  induction h with
  | init env => intro r hr; cases hr
  | step op hs he ih => exact selected_in_heap_step op hs.inv ih he


/-- Every event other than a load that parses keeps the selected node, when there
is one, in the node array. -/
theorem selection_valid_step {s : State} (op : Op) (hi : Inv s) (hv : SelectionValid s)
    (he : op.enabled s = true) (hl : op.loads = false) : SelectionValid (step s op) := by
  cases op with
  | canvasClick env cx cy =>
    simp only [step, handleCanvasClick]
    split
    · intro r hr
      exact List.mem_append_left _ (hv r hr)
    · exact hv
  | nodeClick node =>
    have hn : node ∈ s.dom := by simpa [Op.enabled] using he
    intro r hr
    have : some node = some r := hr
    cases this
    exact hi.dom ▸ hn
  | drag env node move =>
    have hn : node ∈ s.dom := by simpa [Op.enabled] using he
    simp only [step, dragNode]
    split
    · exact hv
    · cases move with
      | none =>
        intro r hr
        have : some node = some r := hr
        cases this
        exact hi.dom ▸ hn
      | some delta =>
        intro r hr
        have : some node = some r := hr
        cases this
        exact hi.dom ▸ hn
  | canvasMouseDown target =>
    simp only [step, handleCanvasMouseDown]
    split
    · exact hv
    · exact hv
  | canvasMouseUp target =>
    simp only [step, handleCanvasMouseUp]
    split
    · cases target with
      | none => exact hv
      | some t =>
        simp only
        split
        · exact hv
        · exact hv
    · exact hv
  | setTool tool => exact hv
  | keyDown key =>
    simp only [step, handleKeyDown]
    split
    · intro r hr
      rw [deleteSelectedNode_selectedNode] at hr
      cases hr
    · exact hv
    · intro r hr; cases hr
    · exact hv
  | deleteSelectedNode =>
    intro r hr
    simp only [step] at hr
    rw [deleteSelectedNode_selectedNode] at hr
    cases hr
  | duplicateNode env =>
    simp only [step, duplicateNode]
    split
    · exact hv
    · intro r hr
      have : some s.heap.length = some r := hr
      cases this
      show s.heap.length ∈ s.nodes ++ [s.heap.length]
      exact List.mem_append_right _ (List.mem_singleton.mpr rfl)
  | centerCanvas env =>
    simp only [step, centerCanvas]
    split
    · exact hv
    · intro r hr
      obtain ⟨k1, -, -, -, k5, -⟩ := foldUpdate_keeps (moveNode env
        (jsSub (JsNum.fin ((env.offsetWidth : ℚ) / 2))
          (jsHalf (jsAdd (nodeBounds s env).minX (nodeBounds s env).maxX)))
        (jsSub (JsNum.fin ((env.offsetHeight : ℚ) / 2))
          (jsHalf (jsAdd (nodeBounds s env).minY (nodeBounds s env).maxY))))
        (by intro e; rfl) s.nodes s
      rw [k5] at hr
      rw [k1]
      exact hv r hr
  | closeNodePanel => intro r hr; cases hr
  | saveNodeChanges n c sz d df =>
    simp only [step, saveNodeChanges]
    split
    · exact hv
    · intro r hr; cases hr
  | updateSelectedNode n c sz d =>
    simp only [step, updateSelectedNode]
    split
    · exact hv
    · exact hv
  | loadTree parsed =>
    cases parsed with
    | none => exact hv
    | some t => simp [Op.loads] at hl
  | clearCanvas env confirmed =>
    cases confirmed with
    | false => exact hv
    | true => intro r hr; cases hr

/-- A sequence of events without a load that parses keeps the selected node in
the node array. -/
theorem selection_valid_run (ops : List Op) : ∀ {s : State}, Reachable s → SelectionValid s →
    runEnabled s ops = true → (∀ op ∈ ops, op.loads = false) → SelectionValid (run s ops) := by
  induction ops with
  | nil => intro s _ hv _ _; exact hv
  | cons op rest ih =>
    intro s hs hv he hl
    simp only [runEnabled, Bool.and_eq_true] at he
    exact ih (Reachable.step op hs he.1)
      (selection_valid_step op hs.inv hv he.1 (hl op (List.mem_cons_self _ _))) he.2
      (fun o ho => hl o (List.mem_cons_of_mem _ ho))

theorem savedAttrs_of_exact (env : Env) (e : Elem) (hl : ReadsExactly env e.left)
    (ht : ReadsExactly env e.top) : savedAttrs env e = truncAttrs e := by
  unfold savedAttrs truncAttrs
  rw [parseInt_of_exact env _ hl, parseInt_of_exact env _ ht]
  cases e.left <;> cases e.top <;> rfl

/-! ## The claims -/

/-- C1: with a node `n` selected, `deleteSelectedNode` leaves a node array without
`n` and a connection array in which no connection has `n.id` as its `from` or
`to`; the node array is the old one with `n` filtered out and the connection
array is the old one with the connections naming `n.id` filtered out (so the
others are kept, in order), and no element is changed. -/
theorem deleteSelectedNode_cascade (s : State) (n : Ref) (h : s.selectedNode = some n) :
    n ∉ (deleteSelectedNode s).nodes ∧
    (∀ c ∈ (deleteSelectedNode s).connections,
      c.from_ ≠ (s.elem n).id ∧ c.to_ ≠ (s.elem n).id) ∧
    (deleteSelectedNode s).nodes = s.nodes.filter (fun m => decide (m ≠ n)) ∧
    (deleteSelectedNode s).connections =
      s.connections.filter (fun c => decide (c.from_ ≠ (s.elem n).id ∧ c.to_ ≠ (s.elem n).id)) ∧
    (deleteSelectedNode s).heap = s.heap := by
  have hn : (deleteSelectedNode s).nodes = s.nodes.filter (fun m => decide (m ≠ n)) := by
    simp [deleteSelectedNode, h, closeNodePanel]
  have hc : (deleteSelectedNode s).connections =
      s.connections.filter (fun c => decide (c.from_ ≠ (s.elem n).id ∧ c.to_ ≠ (s.elem n).id)) := by
    simp only [deleteSelectedNode, h, closeNodePanel]
    apply List.filter_congr
    intro c _
    by_cases h1 : c.from_ = (s.elem n).id <;> by_cases h2 : c.to_ = (s.elem n).id <;> simp [h1, h2]
  refine ⟨?_, ?_, hn, hc, ?_⟩
  · rw [hn]; simp
  · intro c hmem
    rw [hc] at hmem
    simpa using (List.mem_filter.mp hmem).2
  · simp [deleteSelectedNode, h, closeNodePanel]

/-- Witness of C1: in the scenario of the spec, deleting `Start` leaves the one
node `Fire Bolt` and no connection. -/
theorem deleteSelectedNode_cascade_witness :
    twoNodes.selectedNode = some 0 ∧
    twoNodes.nodes = [0, 1] ∧ twoNodes.connections.length = 1 ∧
    (0 ∉ (deleteSelectedNode twoNodes).nodes ∧
      ∀ c ∈ (deleteSelectedNode twoNodes).connections,
        c.from_ ≠ (twoNodes.elem 0).id ∧ c.to_ ≠ (twoNodes.elem 0).id) ∧
    (deleteSelectedNode twoNodes).nodes = [1] ∧
    ((deleteSelectedNode twoNodes).elem 1).name = "Fire Bolt" ∧
    (deleteSelectedNode twoNodes).connections = [] :=
  ⟨by with_unfolding_all decide, by with_unfolding_all decide, by with_unfolding_all decide,
    ⟨(deleteSelectedNode_cascade twoNodes 0 (by with_unfolding_all decide)).1,
     (deleteSelectedNode_cascade twoNodes 0 (by with_unfolding_all decide)).2.1⟩,
    by with_unfolding_all decide, by with_unfolding_all decide, by with_unfolding_all decide⟩

/-- C2: in every reachable state the counter equals the number of elements
created so far, the element created `i`-th carries the id `node-i` whatever was
deleted, loaded or cleared in between, so the numeric suffixes increase strictly
in creation order, and no two elements ever created share an id. -/
theorem node_ids_strictly_increasing (s : State) (hs : Reachable s) :
    s.nodeCounter = s.heap.length ∧
    (∀ i, i < s.heap.length → (s.elem i).id = nodeId i) ∧
    (∀ i j, i < j → j < s.heap.length →
      ∃ a b, (s.elem i).id = nodeId a ∧ (s.elem j).id = nodeId b ∧ a < b) ∧
    (s.heap.map fun e => e.id).Nodup := by
  have h := hs.inv
  refine ⟨h.counter, h.ids, ?_, ?_⟩
  · intro i j hij hj
    exact ⟨i, j, h.ids i (Nat.lt_trans hij hj), h.ids j hj, hij⟩
  · rw [heap_ids_eq h]
    exact List.Nodup.map nodeId_injective (List.nodup_range _)

/-- Witness of C2: after a session that adds, deletes, loads, clears and
duplicates, the ids handed out are `node-0` to `node-6`, in creation order. -/
theorem node_ids_strictly_increasing_witness :
    ((run (State.init env0) busySession).heap.map fun e => e.id) =
      ["node-0", "node-1", "node-2", "node-3", "node-4", "node-5", "node-6"] ∧
    (run (State.init env0) busySession).nodes = [5, 6] ∧
    (run (State.init env0) busySession).nodeCounter =
      (run (State.init env0) busySession).heap.length ∧
    ((run (State.init env0) busySession).heap.map fun e => e.id).Nodup :=
  ⟨by with_unfolding_all decide, by with_unfolding_all decide,
    (node_ids_strictly_increasing _
      ((Reachable.init env0).run busySession (by with_unfolding_all decide))).1,
    (node_ids_strictly_increasing _
      ((Reachable.init env0).run busySession (by with_unfolding_all decide))).2.2.2⟩

set_option maxRecDepth 100000 in
/-- Counterexample to C3: on the odd canvas the attribute tuple of `Start`, at
350.5 pixels, is the tuple of no node after saving and loading, and the one
connection is gone. -/
theorem save_load_not_equivalent :
    runEnabled (State.init oddCanvas)
      [Op.canvasClick oddCanvas 600 200, Op.setTool Tool.connect, Op.canvasMouseDown (some 0),
       Op.canvasMouseUp (some 1)] = true ∧
    (loadTreeData halfPixel (saveTree halfPixel oddCanvas)).2 = false ∧
    attrs (halfPixel.elem 0) ∈ nodeAttrs halfPixel ∧
    attrs (halfPixel.elem 0) ∉ nodeAttrs (loadTreeData halfPixel (saveTree halfPixel oddCanvas)).1 ∧
    connShape halfPixel = [(some 0, some 1)] ∧
    connShape (loadTreeData halfPixel (saveTree halfPixel oddCanvas)).1 = [] ∧
    ¬ (nodeAttrs (loadTreeData halfPixel (saveTree halfPixel oddCanvas)).1 = nodeAttrs halfPixel ∧
        connShape (loadTreeData halfPixel (saveTree halfPixel oddCanvas)).1 =
          connShape halfPixel) := by
  refine ⟨?_, ?_, ?_, ?_, ?_, ?_, ?_⟩
  · with_unfolding_all decide
  · with_unfolding_all decide
  · with_unfolding_all decide
  · with_unfolding_all decide
  · with_unfolding_all decide
  · with_unfolding_all decide
  · with_unfolding_all decide

/-- C3 as amended: for every state and every browser, loading the document
`saveTree` writes raises no alert and yields, in the order of the saved node
array, nodes with the saved name, colour, size, description and difficulty, and
with the position `saveTree` wrote: what `parseInt` reads from `style.left` and
`style.top` (a coordinate that is no length stays none).  Where the browser
serialises the coordinates of the nodes in full, that position is the old one
cut to whole pixels toward zero. -/
theorem save_load_nodes (s : State) (env : Env) :
    (loadTree s (some (saveTree s env))).2 = false ∧
    nodeAttrs (loadTreeData s (saveTree s env)).1 =
      s.nodes.map (fun r => savedAttrs env (s.elem r)) ∧
    (loadTreeData s (saveTree s env)).1.nodes.length = s.nodes.length ∧
    ((∀ r ∈ s.nodes, ReadsExactly env (s.elem r).left ∧ ReadsExactly env (s.elem r).top) →
      nodeAttrs (loadTreeData s (saveTree s env)).1 =
        s.nodes.map (fun r => truncAttrs (s.elem r))) := by
  have hn : (saveTree s env).nodes = some ((s.nodes.map fun node =>
        ({ id := (s.elem node).id
           name := some (s.elem node).name
           x := setPx none (parseInt env (s.elem node).left)
           y := setPx none (parseInt env (s.elem node).top)
           color := (s.elem node).color
           size := (s.elem node).size
           description := (s.elem node).description
           difficulty := (s.elem node).difficulty } : NodeData)).map some) := by
    simp [saveTree, List.map_map, Function.comp_def]
  have hc : (saveTree s env).connections = some ((s.connections.map fun conn =>
        ({ from_ := conn.from_, to_ := conn.to_ } : ConnData)).map some) := by
    simp [saveTree, List.map_map, Function.comp_def]
  obtain ⟨n1, n2, n3, -⟩ := loadNodes_some (s.nodes.map fun node =>
        ({ id := (s.elem node).id
           name := some (s.elem node).name
           x := setPx none (parseInt env (s.elem node).left)
           y := setPx none (parseInt env (s.elem node).top)
           color := (s.elem node).color
           size := (s.elem node).size
           description := (s.elem node).description
           difficulty := (s.elem node).difficulty } : NodeData)) (removeAll s)
  obtain ⟨c1, c2, c3⟩ := loadConnections_some (s.connections.map fun conn =>
        ({ from_ := conn.from_, to_ := conn.to_ } : ConnData))
        (loadNodes (removeAll s) ((s.nodes.map fun node =>
        ({ id := (s.elem node).id
           name := some (s.elem node).name
           x := setPx none (parseInt env (s.elem node).left)
           y := setPx none (parseInt env (s.elem node).top)
           color := (s.elem node).color
           size := (s.elem node).size
           description := (s.elem node).description
           difficulty := (s.elem node).difficulty } : NodeData)).map some)).1
  have key : (loadTreeData s (saveTree s env)) = loadConnections (loadNodes (removeAll s)
      ((s.nodes.map fun node =>
        ({ id := (s.elem node).id
           name := some (s.elem node).name
           x := setPx none (parseInt env (s.elem node).left)
           y := setPx none (parseInt env (s.elem node).top)
           color := (s.elem node).color
           size := (s.elem node).size
           description := (s.elem node).description
           difficulty := (s.elem node).difficulty } : NodeData)).map some)).1
      ((s.connections.map fun conn =>
        ({ from_ := conn.from_, to_ := conn.to_ } : ConnData)).map some) := by
    simp only [loadTreeData, hn, hc, n1]
    rfl
  have hnodes : (loadTreeData s (saveTree s env)).1.nodes =
      List.range' s.heap.length s.nodes.length := by
    rw [key, c2, n2]; simp [removeAll]
  have hattrs : nodeAttrs (loadTreeData s (saveTree s env)).1 =
      s.nodes.map (fun r => savedAttrs env (s.elem r)) := by
    unfold nodeAttrs
    rw [hnodes]
    have hheap : (loadTreeData s (saveTree s env)).1.heap.map attrs =
        s.heap.map attrs ++ s.nodes.map (fun r => savedAttrs env (s.elem r)) := by
      rw [key, c3, n3]
      simp [removeAll, List.map_map, Function.comp_def, dataAttrs, savedAttrs]
    have := map_range'_getD attrs default (loadTreeData s (saveTree s env)).1.heap
      (s.heap.map attrs) (s.nodes.map (fun r => savedAttrs env (s.elem r))) hheap
    simpa [State.elem] using this
  refine ⟨?_, hattrs, ?_, fun hex => ?_⟩
  · show (loadTreeData s (saveTree s env)).2 = false
    rw [key]; exact c1
  · rw [hnodes]; simp
  · rw [hattrs]
    exact List.map_congr_left (fun r hr => savedAttrs_of_exact env _ (hex r hr).1 (hex r hr).2)

set_option maxRecDepth 100000 in
/-- Witness of the amended C3: the half-pixel scenario saved and loaded on the
odd canvas; `Start` comes back at 350 pixels, cut from 350.5. -/
theorem save_load_nodes_witness :
    (halfPixel.elem 0).left = some (701 / 2) ∧
    nodeAttrs (loadTreeData halfPixel (saveTree halfPixel oddCanvas)).1 =
      [{ name := "Start", left := some 350, top := some 250, color := "#00ffff", size := "100",
         description := "", difficulty := "beginner" },
       { name := "New Node", left := some 550, top := some 150, color := "#00ffff",
         size := "100", description := "", difficulty := "beginner" }] ∧
    nodeAttrs (loadTreeData halfPixel (saveTree halfPixel oddCanvas)).1 =
      halfPixel.nodes.map (fun r => truncAttrs (halfPixel.elem r)) :=
  ⟨by with_unfolding_all decide, by with_unfolding_all decide,
   (save_load_nodes halfPixel oddCanvas).2.2.2 (fun _ _ => ⟨fun _ _ => rfl, fun _ _ => rfl⟩)⟩

/-- Counterexample to C4: `createConnection` called with the same node twice
appends a connection from the node to itself. -/
theorem createConnection_self_appends :
    (createConnection (State.init env0) (DomRef.node 0) (DomRef.node 0)).connections =
      [{ id := "connection-0", from_ := "node-0", to_ := "node-0", fromNode := DomRef.node 0,
         toNode := DomRef.node 0 }] ∧
    (createConnection (State.init env0) (DomRef.node 0) (DomRef.node 0)).connections ≠
      (State.init env0).connections := by
  with_unfolding_all decide

/-- C4 as amended: a connect gesture that started on node `a` and is released
over `a` itself adds no connection; the connection array, the node array and
every element are unchanged, and the gesture is over. -/
theorem mouseUp_on_source_adds_nothing (s : State) (a : Ref)
    (h1 : s.isConnecting = true) (h2 : s.connectionStart = some a) :
    (handleCanvasMouseUp s (some a)).connections = s.connections ∧
    (handleCanvasMouseUp s (some a)).nodes = s.nodes ∧
    (handleCanvasMouseUp s (some a)).heap = s.heap ∧
    (handleCanvasMouseUp s (some a)).connectionCounter = s.connectionCounter ∧
    (handleCanvasMouseUp s (some a)).isConnecting = false := by
  simp [handleCanvasMouseUp, h1, h2]

/-- Witness of the amended C4: the gesture that starts on `Start` and ends on
`Start` in the spec scenario. -/
theorem mouseUp_on_source_adds_nothing_witness :
    midGesture.isConnecting = true ∧ midGesture.connectionStart = some 0 ∧
    (handleCanvasMouseUp midGesture (some 0)).connections = midGesture.connections :=
  ⟨by with_unfolding_all decide, by with_unfolding_all decide,
    (mouseUp_on_source_adds_nothing midGesture 0 (by with_unfolding_all decide)
      (by with_unfolding_all decide)).1⟩

set_option maxRecDepth 100000 in
/-- Counterexample to C5: the wide document on the odd canvas.  The first call
puts the nodes at -99.5 and 900.5, fractions on both sides of zero; the second
call moves them to -99 and 900. -/
theorem centerCanvas_not_idempotent :
    runEnabled (State.init oddCanvas) [Op.loadTree (some wideDocument)] = true ∧
    wideOnOdd.nodes = [1, 2] ∧
    lefts (centerCanvas wideOnOdd oddCanvas) = [some (-199 / 2), some (1801 / 2)] ∧
    lefts (centerCanvas (centerCanvas wideOnOdd oddCanvas) oddCanvas) = [some (-99), some 900] ∧
    ((centerCanvas (centerCanvas wideOnOdd oddCanvas) oddCanvas).elem 1).left ≠
      ((centerCanvas wideOnOdd oddCanvas).elem 1).left ∧
    ¬ AxisSettled (lefts (centerCanvas wideOnOdd oddCanvas)) := by
  refine ⟨?_, ?_, ?_, ?_, ?_, ?_⟩
  · with_unfolding_all decide
  · with_unfolding_all decide
  · with_unfolding_all decide
  · with_unfolding_all decide
  · with_unfolding_all decide
  · with_unfolding_all decide

/-- C5 as amended: in a reachable state, for every canvas size, when the browser
serialises in full the coordinates the first `centerCanvas` wrote, a second call
changes no element exactly when, on each axis, the coordinates after the first
call do not straddle zero with fractions: one of them is no length, or all are
whole numbers, or none is negative, or none is positive. -/
theorem centerCanvas_idempotent (s : State) (env : Env) (hs : Reachable s)
    (hread : ∀ r ∈ s.nodes,
      ReadsExactly env ((centerCanvas s env).elem r).left ∧
      ReadsExactly env ((centerCanvas s env).elem r).top) :
    (∀ i, (centerCanvas (centerCanvas s env) env).elem i = (centerCanvas s env).elem i) ↔
      AxisSettled (lefts (centerCanvas s env)) ∧ AxisSettled (tops (centerCanvas s env)) := by
  have h := hs.inv
  by_cases hne : s.nodes.length = 0
  · have e : centerCanvas s env = s := by unfold centerCanvas; rw [if_pos hne]
    have hnil : s.nodes = [] := List.length_eq_zero.mp hne
    rw [e, e]
    refine ⟨fun _ => ⟨Or.inr (Or.inl fun p hp => ?_), Or.inr (Or.inl fun p hp => ?_)⟩,
      fun _ i => rfl⟩
    · unfold lefts at hp; rw [hnil] at hp; exact absurd hp (List.not_mem_nil _)
    · unfold tops at hp; rw [hnil] at hp; exact absurd hp (List.not_mem_nil _)
  · obtain ⟨n1, e1⟩ := centerCanvas_elem h env hne
    have hne' : ¬ (centerCanvas s env).nodes.length = 0 := by rw [n1]; exact hne
    obtain ⟨-, e2⟩ := centerCanvas_elem (h.centerCanvas env) env hne'
    have hl : lefts (centerCanvas s env) = (lefts s).map (axisMove (parseInt env)
        (axisOffset (parseInt env) ((env.offsetWidth : ℚ) / 2) (lefts s))) := by
      unfold lefts
      rw [n1, List.map_map]
      exact List.map_congr_left (fun r hr => by
        show ((centerCanvas s env).elem r).left = _
        rw [e1 r, if_pos hr]; rfl)
    have ht : tops (centerCanvas s env) = (tops s).map (axisMove (parseInt env)
        (axisOffset (parseInt env) ((env.offsetHeight : ℚ) / 2) (tops s))) := by
      unfold tops
      rw [n1, List.map_map]
      exact List.map_congr_left (fun r hr => by
        show ((centerCanvas s env).elem r).top = _
        rw [e1 r, if_pos hr]; rfl)
    have hrx : ∀ p ∈ lefts s, ReadsExactly env (axisMove (parseInt env)
        (axisOffset (parseInt env) ((env.offsetWidth : ℚ) / 2) (lefts s)) p) := by
      intro p hp
      obtain ⟨r, hr, rfl⟩ := List.mem_map.mp hp
      have := (hread r hr).1
      rw [e1 r, if_pos hr] at this
      exact this
    have hry : ∀ p ∈ tops s, ReadsExactly env (axisMove (parseInt env)
        (axisOffset (parseInt env) ((env.offsetHeight : ℚ) / 2) (tops s)) p) := by
      intro p hp
      obtain ⟨r, hr, rfl⟩ := List.mem_map.mp hp
      have := (hread r hr).2
      rw [e1 r, if_pos hr] at this
      exact this
    have kx := axis_idem env _ (lefts s) hrx
    have ky := axis_idem env _ (tops s) hry
    rw [hl, ht]
    constructor
    · intro hid
      refine ⟨kx.mp fun p hp => ?_, ky.mp fun p hp => ?_⟩
      · obtain ⟨r, hr, rfl⟩ := List.mem_map.mp hp
        have hr' : r ∈ (centerCanvas s env).nodes := by rw [n1]; exact hr
        have e3 := e2 r
        rw [if_pos hr', hid r] at e3
        have e4 := congrArg Elem.left e3
        have e5 : ((centerCanvas s env).elem r).left = axisMove (parseInt env)
            (axisOffset (parseInt env) ((env.offsetWidth : ℚ) / 2) (lefts s))
            (s.elem r).left := by
          rw [e1 r, if_pos hr]
        rw [hl] at e4
        simp only [e5] at e4
        exact e4.symm
      · obtain ⟨r, hr, rfl⟩ := List.mem_map.mp hp
        have hr' : r ∈ (centerCanvas s env).nodes := by rw [n1]; exact hr
        have e3 := e2 r
        rw [if_pos hr', hid r] at e3
        have e4 := congrArg Elem.top e3
        have e5 : ((centerCanvas s env).elem r).top = axisMove (parseInt env)
            (axisOffset (parseInt env) ((env.offsetHeight : ℚ) / 2) (tops s))
            (s.elem r).top := by
          rw [e1 r, if_pos hr]
        rw [ht] at e4
        simp only [e5] at e4
        exact e4.symm
    · rintro ⟨hx, hy⟩ i
      rw [e2 i, n1]
      by_cases hi : i ∈ s.nodes
      · rw [if_pos hi]
        have jx := kx.mpr hx (s.elem i).left (List.mem_map.mpr ⟨i, hi, rfl⟩)
        have jy := ky.mpr hy (s.elem i).top (List.mem_map.mpr ⟨i, hi, rfl⟩)
        rw [hl, ht]
        have ei := e1 i
        rw [if_pos hi] at ei
        rw [ei]
        simp only [jx, jy]
      · rw [if_neg hi]

set_option maxRecDepth 100000 in
/-- Witness of the amended C5: on the odd canvas the first call puts the two
nodes at 300.5 and 500.5, a half-pixel offset with no negative coordinate, and
the second call moves nothing. -/
theorem centerCanvas_idempotent_witness :
    halfPixel.nodes = [0, 1] ∧
    lefts (centerCanvas halfPixel oddCanvas) = [some (601 / 2), some (1001 / 2)] ∧
    tops (centerCanvas halfPixel oddCanvas) = [some 350, some 250] ∧
    ∀ i, (centerCanvas (centerCanvas halfPixel oddCanvas) oddCanvas).elem i =
      (centerCanvas halfPixel oddCanvas).elem i :=
  ⟨by with_unfolding_all decide, by with_unfolding_all decide, by with_unfolding_all decide,
   (centerCanvas_idempotent halfPixel oddCanvas
    ((Reachable.init oddCanvas).run _ (by with_unfolding_all decide))
    (fun _ _ => ⟨fun _ _ => rfl, fun _ _ => rfl⟩)).mpr
    ⟨by with_unfolding_all decide, by with_unfolding_all decide⟩⟩

set_option maxRecDepth 100000 in
/-- The failing input of C6: `Start`, at (350, 250), is selected and a save file
is loaded; the selection still refers to the removed `Start`, an element outside
the document, whose rectangle is the all-zero one.  Its duplicate is placed at
(50, 50), not at (400, 300).  After a confirmed `clearCanvas` in place of the
load nothing is selected and `duplicateNode` does nothing. -/
theorem duplicateNode_stale_selection :
    runEnabled (State.init env0)
      [Op.nodeClick 0, Op.loadTree (some (saveTree twoNodes env0)),
       Op.duplicateNode env0] = true ∧
    staleSelection.selectedNode = some 0 ∧
    0 ∉ staleSelection.nodes ∧ 0 ∉ staleSelection.dom ∧
    (staleSelection.elem 0).left = some 350 ∧ (staleSelection.elem 0).top = some 250 ∧
    (duplicateNode staleSelection env0).nodes = staleSelection.nodes ++ [3] ∧
    ((duplicateNode staleSelection env0).elem 3).left = some 50 ∧
    ((duplicateNode staleSelection env0).elem 3).top = some 50 ∧
    ((duplicateNode staleSelection env0).elem 3).left ≠
      (staleSelection.elem 0).left.map (fun x => x + 50) ∧
    duplicateNode (clearCanvas (selectNode (State.init env0) 0) env0 true) env0 =
      clearCanvas (selectNode (State.init env0) 0) env0 true := by
  refine ⟨?_, ?_, ?_, ?_, ?_, ?_, ?_, ?_, ?_, ?_, ?_⟩
  · with_unfolding_all decide
  · with_unfolding_all decide
  · with_unfolding_all decide
  · with_unfolding_all decide
  · with_unfolding_all decide
  · with_unfolding_all decide
  · with_unfolding_all decide
  · with_unfolding_all decide
  · with_unfolding_all decide
  · with_unfolding_all decide
  · with_unfolding_all decide

/-- Counterexample to C7: loading a document without a `nodes` array raises the
alert and has emptied the node array. -/
theorem loadTree_malformed_clears :
    (loadTree twoNodes (some emptyDocument)).2 = true ∧
    twoNodes.nodes = [0, 1] ∧
    (loadTree twoNodes (some emptyDocument)).1.nodes = [] ∧
    twoNodes.connections ≠ [] ∧
    (loadTree twoNodes (some emptyDocument)).1.connections = [] := by
  with_unfolding_all decide

/-- C7 as amended: when `JSON.parse` throws on the file text, the alert is
raised and the state, hence the node and the connection array, is what it was. -/
theorem loadTree_parse_failure (s : State) :
    (loadTree s none).2 = true ∧ (loadTree s none).1 = s ∧
    (loadTree s none).1.nodes = s.nodes ∧ (loadTree s none).1.connections = s.connections :=
  ⟨rfl, rfl, rfl, rfl⟩

set_option maxRecDepth 100000 in
/-- Counterexample to C8, in two ways.  With two nodes, a connect gesture starts
on the selected `Start`, the Delete key removes `Start`, and the release over
the other node creates a connection whose `from` is `node-0`, the id of no node
of the node array.  And a file whose one connection names the canvas and the
node panel, loaded in the initial state, creates a connection between these two
elements of the page, neither of which is a node. -/
theorem connection_from_deleted_node :
    runEnabled (State.init env0) deleteMidGesture = true ∧
    (run (State.init env0) deleteMidGesture).nodes = [1] ∧
    ((run (State.init env0) deleteMidGesture).elem 1).id = "node-1" ∧
    (run (State.init env0) deleteMidGesture).connections =
      [{ id := "connection-0", from_ := "node-0", to_ := "node-1", fromNode := DomRef.node 0,
         toNode := DomRef.node 1 }] ∧
    ¬ ConnectionsResolve (run (State.init env0) deleteMidGesture) ∧
    (State.init env0).isConnecting = false ∧
    (loadTree (State.init env0) (some pageDocument)).2 = false ∧
    (loadTree (State.init env0) (some pageDocument)).1.nodes = [] ∧
    (loadTree (State.init env0) (some pageDocument)).1.connections =
      [{ id := "connection-0", from_ := "canvas", to_ := "node-panel",
         fromNode := DomRef.page "canvas", toNode := DomRef.page "node-panel" }] ∧
    ¬ ConnectionsResolve (loadTree (State.init env0) (some pageDocument)).1 := by
  refine ⟨?_, ?_, ?_, ?_, ?_, ?_, ?_, ?_, ?_, ?_⟩
  · with_unfolding_all decide
  · with_unfolding_all decide
  · with_unfolding_all decide
  · with_unfolding_all decide
  · with_unfolding_all decide
  · with_unfolding_all decide
  · with_unfolding_all decide
  · with_unfolding_all decide
  · with_unfolding_all decide
  · with_unfolding_all decide

/-- C8 as amended: in every state reached by the events of the page such that no
node is removed (Delete key, delete action, load, confirmed clear) while a
connect gesture is in progress and no loaded file names, in a connection, the id
of an element of the page itself, the `from` id and the `to` id of every
connection are ids of nodes of the node array; and the loop of `loadTreeData`
skips a saved connection of which an id resolves to no element. -/
theorem connections_resolve (s : State) (h : ReachableApart s) :
    (∀ c ∈ s.connections,
      (∃ r ∈ s.nodes, (s.elem r).id = c.from_) ∧ (∃ r ∈ s.nodes, (s.elem r).id = c.to_)) ∧
    (∀ (d : ConnData) (rest : List (Option ConnData)),
      getElementById s d.from_ = none ∨ getElementById s d.to_ = none →
        loadConnections s (some d :: rest) = loadConnections s rest) := by
  refine ⟨h.all.2.1, fun d rest hd => ?_⟩
  simp only [loadConnections]
  split
  · rename_i f t hf ht
    rcases hd with hd | hd
    · rw [hd] at hf; cases hf
    · rw [hd] at ht; cases ht
  · rfl

set_option maxRecDepth 100000 in
/-- Witness of the amended C8: a file with one connection that resolves and one
that names the id of a removed node is loaded over the spec scenario; only the
first connection is created. -/
theorem connections_resolve_witness :
    (afterDanglingLoad.connections.map fun c => (c.from_, c.to_)) = [("node-3", "node-2")] ∧
    ∀ c ∈ afterDanglingLoad.connections,
      (∃ r ∈ afterDanglingLoad.nodes, (afterDanglingLoad.elem r).id = c.from_) ∧
      (∃ r ∈ afterDanglingLoad.nodes, (afterDanglingLoad.elem r).id = c.to_) :=
  ⟨by with_unfolding_all decide,
   (connections_resolve afterDanglingLoad
    (((ReachableApart.init env0).run_apart _ (by with_unfolding_all decide)).run_apart
      [Op.loadTree (some danglingDocument)] (by with_unfolding_all decide))).1⟩

/-- Counterexample to C9: clearing the initial state leaves one node. -/
theorem clearCanvas_not_empty :
    (clearCanvas (State.init env0) env0 true).nodes ≠ [] := by
  with_unfolding_all decide

/-- C9 as amended: after a confirmed `clearCanvas` the connection array is empty,
nothing is selected, and the node array holds exactly one node, created by the
call: a `Start` node with the default styling placed 50 pixels up and left of
the centre of the canvas. -/
theorem clearCanvas_leaves_start (s : State) (env : Env) :
    (clearCanvas s env true).connections = [] ∧
    (clearCanvas s env true).selectedNode = none ∧
    (clearCanvas s env true).nodes = [s.heap.length] ∧
    (clearCanvas s env true).elem s.heap.length =
      { id := nodeId s.nodeCounter
        left := some ((env.offsetWidth : ℚ) / 2 - 50)
        top := some ((env.offsetHeight : ℚ) / 2 - 50)
        name := "Start", color := "#00ffff", size := "100", description := "",
        difficulty := "beginner" } := by
  refine ⟨rfl, rfl, rfl, ?_⟩
  exact elem_addNode_new (closeNodePanel (removeAll s)) _ _ "Start"

/-- C10: in a reachable state `addNode` returns a node whose id `node-N` (`N` the
counter) is the id of no element created before, with the given name and
position and the default colour, size, description and difficulty; the node
array is the old one with the new node appended, and every element created
before and every connection is unchanged. -/
theorem addNode_appends (s : State) (hs : Reachable s) (x y : Px) (name : String) :
    (addNode s x y name).1.elem (addNode s x y name).2 =
      { id := nodeId s.nodeCounter, left := x, top := y, name := name,
        color := "#00ffff", size := "100", description := "", difficulty := "beginner" } ∧
    (∀ i, i < s.heap.length → (s.elem i).id ≠ nodeId s.nodeCounter) ∧
    (addNode s x y name).2 ∉ s.nodes ∧
    (addNode s x y name).1.nodes = s.nodes ++ [(addNode s x y name).2] ∧
    (∀ i, i < s.heap.length → (addNode s x y name).1.elem i = s.elem i) ∧
    (addNode s x y name).1.connections = s.connections ∧
    (addNode s x y name).1.selectedNode = s.selectedNode := by
  have h := hs.inv
  refine ⟨elem_addNode_new s x y name, ?_, ?_, rfl, ?_, rfl, rfl⟩
  · intro i hi heq
    rw [h.ids i hi, h.counter] at heq
    exact absurd (nodeId_injective heq) (Nat.ne_of_lt hi)
  · intro hm
    exact Nat.lt_irrefl _ (h.bound _ hm)
  · intro i hi
    exact elem_addNode_old s x y name i hi

/-- Witness of C10: adding a third node to the spec scenario. -/
theorem addNode_appends_witness :
    (addNode twoNodes (some 10) (some 20) "Ice").1.elem (addNode twoNodes (some 10) (some 20) "Ice").2 =
      { id := "node-2", left := some 10, top := some 20, name := "Ice",
        color := "#00ffff", size := "100", description := "", difficulty := "beginner" } ∧
    (addNode twoNodes (some 10) (some 20) "Ice").1.nodes = [0, 1, 2] :=
  ⟨(addNode_appends twoNodes
      ((Reachable.init env0).run _ (by with_unfolding_all decide)) (some 10) (some 20) "Ice").1,
   by with_unfolding_all decide⟩

/-- Counterexample to C11: a click on the empty canvas of the initial state adds
the node 1 and selects nothing. -/
theorem canvasClick_selects_nothing :
    (State.init env0).currentTool = Tool.addNode ∧
    (handleCanvasClick (State.init env0) env0 600 200).nodes = [0, 1] ∧
    (handleCanvasClick (State.init env0) env0 600 200).selectedNode = none ∧
    (handleCanvasClick (State.init env0) env0 600 200).selectedNode ≠ some 1 := by
  refine ⟨?_, ?_, ?_, ?_⟩
  · with_unfolding_all decide
  · with_unfolding_all decide
  · with_unfolding_all decide
  · with_unfolding_all decide

/-- C11 as amended: in a reachable state with `currentTool = 'addNode'`, a click
on the empty canvas appends exactly one node, made by `addNode` 50 pixels up and
left of the pointer with the name `New Node` and the default styling; the
elements created before and the connections are unchanged, and the selection is
left as it was, so that the new node is not the selected node. -/
theorem canvasClick_adds_unselected (s : State) (env : Env) (clientX clientY : ℚ)
    (hs : Reachable s) (ht : s.currentTool = Tool.addNode) :
    (handleCanvasClick s env clientX clientY).nodes = s.nodes ++ [s.heap.length] ∧
    (handleCanvasClick s env clientX clientY).elem s.heap.length =
      { id := nodeId s.nodeCounter
        left := some (clientX - env.canvasLeft - 50)
        top := some (clientY - env.canvasTop - 50)
        name := "New Node", color := "#00ffff", size := "100", description := "",
        difficulty := "beginner" } ∧
    (∀ i, i < s.heap.length → (handleCanvasClick s env clientX clientY).elem i = s.elem i) ∧
    (handleCanvasClick s env clientX clientY).connections = s.connections ∧
    (handleCanvasClick s env clientX clientY).selectedNode = s.selectedNode ∧
    (handleCanvasClick s env clientX clientY).selectedNode ≠ some s.heap.length := by
  have e : handleCanvasClick s env clientX clientY =
      (addNode s (some (clientX - env.canvasLeft - 50)) (some (clientY - env.canvasTop - 50))
        "New Node").1 := by
    simp [handleCanvasClick, ht]
  rw [e]
  refine ⟨rfl, elem_addNode_new s _ _ "New Node", fun i hi => elem_addNode_old s _ _ _ i hi,
    rfl, rfl, ?_⟩
  intro hc
  exact Nat.lt_irrefl _ (reachable_selected_in_heap hs _ hc)

set_option maxRecDepth 100000 in
/-- Witness of the amended C11: a click on the canvas of the initial state. -/
theorem canvasClick_adds_unselected_witness :
    (State.init env0).currentTool = Tool.addNode ∧
    (handleCanvasClick (State.init env0) env0 600 200).nodes =
      (State.init env0).nodes ++ [(State.init env0).heap.length] ∧
    (handleCanvasClick (State.init env0) env0 600 200).elem 1 =
      { id := "node-1", left := some 550, top := some 150, name := "New Node",
        color := "#00ffff", size := "100", description := "", difficulty := "beginner" } :=
  ⟨by with_unfolding_all decide,
   (canvasClick_adds_unselected (State.init env0) env0 600 200 (Reachable.init env0)
      (by with_unfolding_all decide)).1,
   by with_unfolding_all decide⟩

/-- C12: with a connect gesture in progress from the node `src`, the release
handler appends exactly one connection, from `src.id` to `t.id`, at the end of
the connection array when the pointer is over a node `t` other than `src`; it
leaves the connection array as it was over `src` itself and over the empty
canvas; in every case the node array and the elements are unchanged and the
gesture is over (`isConnecting = false`, `connectionStart = null`). -/
theorem mouseUp_completes_gesture (s : State) (src : Ref)
    (h1 : s.isConnecting = true) (h2 : s.connectionStart = some src) :
    (∀ t, t ≠ src → (handleCanvasMouseUp s (some t)).connections =
      s.connections ++
        [{ id := connectionId s.connectionCounter, from_ := (s.elem src).id,
           to_ := (s.elem t).id, fromNode := DomRef.node src, toNode := DomRef.node t }]) ∧
    (handleCanvasMouseUp s (some src)).connections = s.connections ∧
    (handleCanvasMouseUp s none).connections = s.connections ∧
    (∀ target, (handleCanvasMouseUp s target).nodes = s.nodes ∧
      (handleCanvasMouseUp s target).heap = s.heap ∧
      (handleCanvasMouseUp s target).isConnecting = false ∧
      (handleCanvasMouseUp s target).connectionStart = none) := by
  refine ⟨fun t ht => ?_, ?_, ?_, fun target => ?_⟩
  · simp [handleCanvasMouseUp, h1, h2, ht, createConnection, State.domId]
  · simp [handleCanvasMouseUp, h1, h2]
  · simp [handleCanvasMouseUp, h1, h2]
  · cases target with
    | none => simp [handleCanvasMouseUp, h1, h2]
    | some t =>
      by_cases ht : t = src
      · simp [handleCanvasMouseUp, h1, h2, ht]
      · simp [handleCanvasMouseUp, h1, h2, ht, createConnection]

set_option maxRecDepth 100000 in
/-- Witness of C12: in the spec scenario a second gesture from `Start` released
over `Fire Bolt` appends `connection-1` after `connection-0`. -/
theorem mouseUp_completes_gesture_witness :
    midGesture.isConnecting = true ∧ midGesture.connectionStart = some 0 ∧
    (handleCanvasMouseUp midGesture (some 1)).connections =
      midGesture.connections ++
        [{ id := connectionId midGesture.connectionCounter, from_ := (midGesture.elem 0).id,
           to_ := (midGesture.elem 1).id, fromNode := DomRef.node 0,
           toNode := DomRef.node 1 }] ∧
    (handleCanvasMouseUp midGesture (some 1)).connections =
      [{ id := "connection-0", from_ := "node-0", to_ := "node-1", fromNode := DomRef.node 0,
         toNode := DomRef.node 1 },
       { id := "connection-1", from_ := "node-0", to_ := "node-1", fromNode := DomRef.node 0,
         toNode := DomRef.node 1 }] ∧
    (handleCanvasMouseUp midGesture (some 1)).isConnecting = false :=
  ⟨by with_unfolding_all decide, by with_unfolding_all decide,
   (mouseUp_completes_gesture midGesture 0 (by with_unfolding_all decide)
      (by with_unfolding_all decide)).1 1 (by decide),
   by with_unfolding_all decide, by with_unfolding_all decide⟩

set_option maxRecDepth 100000 in
/-- The failing input of C13: `Start` is selected and a save file is loaded.
Afterwards the node array holds the two loaded nodes and the selected node is
still the removed `Start`, in no way a member of the node array; a confirmed
`clearCanvas` in the same state clears the selection. -/
theorem selection_stale_after_load :
    runEnabled (State.init env0)
      [Op.nodeClick 0, Op.loadTree (some (saveTree twoNodes env0))] = true ∧
    staleSelection.nodes = [1, 2] ∧
    staleSelection.selectedNode = some 0 ∧
    0 ∉ staleSelection.nodes ∧
    ¬ (staleSelection.selectedNode = none ∨
        ∃ r, staleSelection.selectedNode = some r ∧ r ∈ staleSelection.nodes) ∧
    (clearCanvas (selectNode (State.init env0) 0) env0 true).selectedNode = none := by
  refine ⟨?_, ?_, ?_, ?_, ?_, ?_⟩
  · with_unfolding_all decide
  · with_unfolding_all decide
  · with_unfolding_all decide
  · with_unfolding_all decide
  · have h1 : staleSelection.selectedNode = some 0 := by with_unfolding_all decide
    have h2 : 0 ∉ staleSelection.nodes := by with_unfolding_all decide
    rintro (h | ⟨r, hr, hm⟩)
    · rw [h1] at h; cases h
    · rw [h1] at hr; cases hr; exact h2 hm
  · with_unfolding_all decide

end SkillTree
